import Mathlib

/-!
Verification development for the batch/multipart protocol engine and the
cursor pagination engine of the rgmail client library.

Bytes are modelled as `Nat` (values below 256 in any real input); Rust
strings appear either as Lean `String` (opaque tokens, JSON field values)
or as byte lists (`List Nat`) where the code manipulates raw bytes.
Fallible Rust functions returning `Result` are modelled with `Except`;
a Rust panic (index/slice out of bounds) is modelled by a dedicated
error constructor so that it stays observable.

Recursive scanners take an explicit fuel argument (structural recursion,
so that concrete runs reduce inside the kernel); callers supply fuel that
provably suffices.
-/

/-- ASCII bytes of a Lean string literal (used only for ASCII literals). -/
def strBytes (s : String) : List Nat :=
  s.data.map Char.toNat

/-- `follows` closure of `multipart_parse` (multipart.rs:75): true when
`sample` occurs at the current position; note the strict `<` comparison,
so a sample ending exactly at the end of the buffer is NOT matched. -/
def follows (sample rem : List Nat) : Bool :=
  decide (sample.length < rem.length) && sample.isPrefixOf rem

/-- One parsed MIME part (multipart.rs `Part`): header map (lowercased
names, later duplicates overwrite) and raw body bytes.  The `HashMap` is
modelled as an association list built by overwriting insertion. -/
structure MPart where
  headers : List (List Nat × List Nat)
  body : List Nat
  deriving DecidableEq, Repr

/-- Errors of the multipart parser.  `frame` carries the byte position,
total length and accumulator length like the `f` closure in
multipart.rs:65; the two `rustPanic*` constructors model the places where
the Rust code panics instead of returning an error: the debug `println`
in the `PartOrEnd` arm slices `data[pos..pos + 2]` without a bounds
check (multipart.rs:130), and header splitting indexes `t[1]` even when
the header line contains no colon (multipart.rs:233). -/
inductive MpErr where
  | fuel
  | frame (pos dataLen accLen : Nat) (msg : String)
  | partErr (msg : String)
  | rustPanicSliceOOB
  | rustPanicNoColon
  deriving DecidableEq, Repr

/-- States of the outer boundary scan (multipart.rs `State`). -/
inductive MpState where
  | restS
  | partS
  | partOrEndS
  deriving DecidableEq, Repr

/-- Loop-invariant context of the boundary scan: the token built from the
boundary (`--boundary\r\n`, its CRLF-preceded variant, and the inter-part
token `\r\n--boundary`), plus the total data length for error payloads. -/
structure MpCtx where
  start : List Nat
  crlfstart : List Nat
  inter : List Nat
  dataLen : Nat

/-- The outer boundary scan of `multipart_parse` (multipart.rs:85-140),
one constructor per loop iteration of the Rust `loop`.  Returns the raw
byte bodies of the parts in order. -/
def mpScan (cx : MpCtx) :
    Nat → MpState → Nat → List Nat → List Nat → List (List Nat) →
    Except MpErr (List (List Nat))
  | 0, _, _, _, _, _ => .error .fuel
  | fuel + 1, s, pos, rem, acc, parts =>
    match rem with
    | [] => .error (.frame pos cx.dataLen acc.length
        "unexpected end of multipart document")
    | b :: rest =>
      match s with
      | .restS =>
        if follows cx.start (b :: rest) then
          mpScan cx fuel .partS (pos + cx.start.length)
            ((b :: rest).drop cx.start.length) [] parts
        else if follows cx.crlfstart (b :: rest) then
          mpScan cx fuel .partS (pos + cx.crlfstart.length)
            ((b :: rest).drop cx.crlfstart.length) [] parts
        else
          .error (.frame pos cx.dataLen acc.length
            "did not start with starting boundary")
      | .partS =>
        if follows cx.inter (b :: rest) then
          mpScan cx fuel .partOrEndS (pos + cx.inter.length)
            ((b :: rest).drop cx.inter.length) acc (parts ++ [acc])
        else
          mpScan cx fuel .partS (pos + 1) rest (acc ++ [b]) parts
      | .partOrEndS =>
        let hitEnd := follows [45, 45] (b :: rest)
        let pos1 := if hitEnd then pos + 2 else pos
        let rem1 := if hitEnd then (b :: rest).drop 2 else b :: rest
        if follows [13, 10] rem1 then
          if hitEnd then .ok parts
          else mpScan cx fuel .partS (pos1 + 2) (rem1.drop 2) [] parts
        else if hitEnd then .ok parts
        else if rem1.length < 2 then .error .rustPanicSliceOOB
        else .error (.frame pos1 cx.dataLen acc.length "expected part or end")

/-- States of the per-part header scan (multipart.rs `PartState`); the
terminal `Body` state is folded into the return value. -/
inductive PState where
  | header
  | headerCR
  | headerOrBody
  | headerOrBodyCR
  deriving DecidableEq, Repr

/-- The per-part header state machine (multipart.rs:164-227): splits one
raw part into its header lines (raw bytes, CR/LF stripped) and its body.
Mirrors the byte-level checks: 7-bit cleanliness, rejection of stray LF
and NUL inside a header line, CR that must be followed by LF, and the
non-consuming `HeaderOrBody -> Header` transition. -/
def partScan :
    Nat → PState → List Nat → List Nat → List (List Nat) →
    Except MpErr (List (List Nat) × List Nat)
  | 0, _, _, _, _ => .error .fuel
  | fuel + 1, s, rem, hdr, hdrs =>
    match rem with
    | [] => .error (.partErr "unexpected end of part")
    | b :: rest =>
      match s with
      | .header =>
        if 127 < b then .error (.partErr "not 7-bit clean in header")
        else if b = 13 then partScan fuel .headerCR rest [] (hdrs ++ [hdr])
        else if b = 10 ∨ b = 0 then .error (.partErr "malformed header")
        else partScan fuel .header rest (hdr ++ [b]) hdrs
      | .headerCR =>
        if 127 < b then .error (.partErr "not 7-bit clean in header")
        else if b = 10 then partScan fuel .headerOrBody rest hdr hdrs
        else .error (.partErr "malformed header")
      | .headerOrBody =>
        if 127 < b then .error (.partErr "not 7-bit clean in header")
        else if b = 13 then partScan fuel .headerOrBodyCR rest hdr hdrs
        else partScan fuel .header (b :: rest) hdr hdrs
      | .headerOrBodyCR =>
        if 127 < b then .error (.partErr "not 7-bit clean in header")
        else if b = 10 then
          if rest = [] then .error (.partErr "unexpected end of part")
          else .ok (hdrs, rest)
        else .error (.partErr "malformed header")

/-- Split a header line at its first colon (Rust `splitn(2, ':')`):
`none` when the line contains no colon at all. -/
def splitColon : List Nat → Option (List Nat × List Nat)
  | [] => none
  | b :: r =>
    if b = 58 then some ([], r)
    else (splitColon r).map (fun p => (b :: p.1, p.2))

/-- ASCII lowercasing of one byte (Rust `to_ascii_lowercase`). -/
def lowerByte (b : Nat) : Nat :=
  if 65 ≤ b ∧ b ≤ 90 then b + 32 else b

/-- ASCII lowercasing of a byte string. -/
def lowerBytes (l : List Nat) : List Nat :=
  l.map lowerByte

/-- Whitespace recognizer matching Rust `str::trim` on ASCII input
(space plus the 0x09-0x0D control range). -/
def isWsByte (b : Nat) : Bool :=
  b = 32 || b = 9 || b = 10 || b = 11 || b = 12 || b = 13

/-- Trim ASCII whitespace from both ends (Rust `str::trim`). -/
def trimBytes (l : List Nat) : List Nat :=
  ((l.dropWhile isWsByte).reverse.dropWhile isWsByte).reverse

/-- Turn one raw header line into a lowercased name and trimmed value
(multipart.rs:231-234).  A line with no colon makes the Rust code index
`t[1]` out of bounds: that panic is the `rustPanicNoColon` error. -/
def headerPair (hdr : List Nat) : Except MpErr (List Nat × List Nat) :=
  match splitColon hdr with
  | none => .error .rustPanicNoColon
  | some (n, v) => .ok (lowerBytes n, trimBytes v)

/-- Overwriting insertion into the header association list (models
`HashMap::insert`). -/
def insertHdr (k v : List Nat) (m : List (List Nat × List Nat)) :
    List (List Nat × List Nat) :=
  m.filter (fun p => p.1 ≠ k) ++ [(k, v)]

/-- Lookup in the header association list (models `HashMap::get`). -/
def lookupHdr (k : List Nat) (m : List (List Nat × List Nat)) :
    Option (List Nat) :=
  (m.find? (fun p => p.1 = k)).map (fun p => p.2)

/-- Parse one raw part: run the header state machine, then split every
header line into a name/value pair and build the header map in order. -/
def partParse (raw : List Nat) : Except MpErr MPart := do
  let (hdrLines, body) ← partScan (2 * raw.length + 1) .header raw [] []
  let hs ← hdrLines.foldlM
    (fun m h => do
      let (k, v) ← headerPair h
      pure (insertHdr k v m))
    []
  pure ⟨hs, body⟩

/-- `multipart_parse` (multipart.rs:18-240): split `data` into parts
delimited by `boundary`, then parse each part's MIME headers.  The outer
scan gets fuel `data.length + 1`, which suffices because every loop
iteration either terminates or consumes at least one byte. -/
def multipart_parse (data boundary : List Nat) :
    Except MpErr (List MPart) := do
  let bound := [45, 45] ++ boundary
  let start := bound ++ [13, 10]
  let crlfstart := [13, 10] ++ start
  let inter := [13, 10] ++ bound
  let raws ← mpScan ⟨start, crlfstart, inter, data.length⟩
    (data.length + 1) .restS 0 data [] []
  raws.mapM partParse

/-! ## Batch request encoding (gmail.rs:315-339) -/

/-- The fixed request boundary constant of gmail.rs:316. -/
def boundB : List Nat := strBytes "23121338-972e-11ea-a0c6-c3892af82e36"

/-- Decimal ASCII digits of a natural number, least fuel first; fuel
`n + 1` always suffices. -/
def natBytesAux : Nat → Nat → List Nat
  | 0, _ => []
  | fuel + 1, n =>
    if n < 10 then [48 + n]
    else natBytesAux fuel (n / 10) ++ [48 + n % 10]

/-- Decimal ASCII representation of `n` (Rust `format!` of an integer). -/
def natBytes (n : Nat) : List Nat :=
  natBytesAux (n + 1) n

/-- One encoded sub-request of the batch body (gmail.rs:318-333), in the
exact order the Rust code pushes the pieces: opening boundary line, the
two framing headers, a blank line, the embedded GET request line, and
two further blank lines. -/
def partBytes (n : Nat) (id fmt : List Nat) : List Nat :=
  strBytes "--" ++ boundB ++ strBytes "\r\n"
    ++ strBytes "Content-Type: application/http\r\n"
    ++ (strBytes "Content-ID: req-" ++ natBytes n ++ strBytes "\r\n")
    ++ strBytes "\r\n"
    ++ (strBytes "GET /gmail/v1/users/me/messages/" ++ id
        ++ strBytes "?format=" ++ fmt ++ strBytes "\r\n")
    ++ strBytes "\r\n"
    ++ strBytes "\r\n"

/-- The encoded sub-requests for `ids`, numbering them from `n`. -/
def encodeParts (fmt : List Nat) : Nat → List (List Nat) → List Nat
  | _, [] => []
  | n, id :: r => partBytes n id fmt ++ encodeParts fmt (n + 1) r

/-- The whole batch request body (gmail.rs:315-337): the encoded
sub-requests followed by the closing boundary `--{boundary}--\r\n`. -/
def encodeBatch (fmt : List Nat) (ids : List (List Nat)) : List Nat :=
  encodeParts fmt 0 ids ++ (strBytes "--" ++ boundB ++ strBytes "--\r\n")

/-! ## Embedded HTTP response parsing

The source delegates this step to the external `httparse` crate
(gmail.rs:397-399), which is not part of this repository, so the parser
itself is modelled from the spec; everything done with its output is
modelled from gmail.rs. -/

/-- Result of parsing a part body as an embedded HTTP response head:
parse error, incomplete (no end of header block before the part ends),
or complete with status, header list and the byte offset `c` at which
the body starts. -/
inductive HttpHead where
  | errH
  | partialH
  | completeH (status : Nat) (headers : List (List Nat × List Nat)) (c : Nat)
  deriving DecidableEq, Repr

/-- Split a byte list at the first CRLFCRLF, returning the bytes before
it and the bytes after it. -/
def splitBlankLine : List Nat → Option (List Nat × List Nat)
  | 13 :: 10 :: 13 :: 10 :: r => some ([], r)
  | b :: r => (splitBlankLine r).map (fun p => (b :: p.1, p.2))
  | [] => none

/-- Split a byte list on a separator byte. -/
def splitByte (sep : Nat) : List Nat → List (List Nat)
  | [] => [[]]
  | b :: r =>
    let rs := splitByte sep r
    if b = sep then [] :: rs
    else
      match rs with
      | [] => [[b]]
      | x :: xs => (b :: x) :: xs

/-- Is the byte an ASCII decimal digit? -/
def isDigitByte (b : Nat) : Bool :=
  decide (48 ≤ b) && decide (b ≤ 57)

/-- Numeric value of a digit byte string. -/
def digitsVal (l : List Nat) : Nat :=
  l.foldl (fun a b => a * 10 + (b - 48)) 0

/-- Parse an unsigned decimal integer the way Rust `usize::from_str`
does on the inputs that occur here: an optional leading `+`, then one
or more decimal digits and nothing else. -/
def parseNatBytes (l : List Nat) : Option Nat :=
  let l' := match l with
    | 43 :: r => r
    | _ => l
  if l' ≠ [] ∧ l'.all isDigitByte then some (digitsVal l') else none

/-- Modelled from the spec: the Embedded Response Parser of spec section
4.2, standing in for the external `httparse` crate used at
gmail.rs:397-401.  A part body is a status line `HTTP/x.y {status} ...`,
a header block of `name: value` lines, a blank line, then the body;
the parse yields the integer status, the raw header pairs, and the byte
offset of the body.  A body with no blank line is incomplete; a
malformed status line or header line is a parse error. -/
def parseEmbedded (body : List Nat) : HttpHead :=
  match splitBlankLine body with
  | none => .partialH
  | some (head, _) =>
    match splitByte 10 (head ++ [13]) |>.map
        (fun l => if l.getLast? = some 13 then l.dropLast else l) with
    | [] => .errH
    | statusLine :: hdrLines =>
      match splitByte 32 statusLine with
      | httpTok :: statusTok :: _ =>
        if (strBytes "HTTP/").isPrefixOf httpTok ∧ statusTok ≠ []
            ∧ statusTok.all isDigitByte then
          let hs := hdrLines.map (fun l =>
            match splitColon l with
            | some (n, v) => some (n, trimBytes v)
            | none => none)
          if hs.all (fun h => h.isSome) then
            .completeH (digitsVal statusTok) (hs.reduceOption)
              (head.length + 4)
          else .errH
        else .errH
      | _ => .errH

/-! ## Outcome classification (gmail.rs:365-545) -/

/-- The per-id outcome type (gmail.rs `MultiResult`). -/
inductive MultiResult (T : Type) where
  | Present (t : T)
  | Missing (id : List Nat)
  | RateLimit (id : List Nat)
  deriving DecidableEq, Repr

/-- One nested entry of the structured 403 error body (gmail.rs `EEE`). -/
structure EJEntry where
  domain : String
  reason : String
  message : String
  deriving DecidableEq, Repr

/-- The structured 403 error body (gmail.rs `EE` inside `E`). -/
structure EJErr where
  errors : List EJEntry
  code : Nat
  message : String
  deriving DecidableEq, Repr

/-- The fatal batch errors of `messages_get_common`, one constructor per
`return Err(...)` site (gmail.rs:365-545). -/
inductive BatchErr where
  | partWrongType
  | partHeaderMissing
  | mimeBad
  | contentIdInvalid
  | contentIdParse
  | embParseErr
  | embIncomplete
  | headersMissing
  | clParse
  | couldNotParse403
  | wrongStatus (status : Nat) (id : List Nat)
  | wrongRespType
  | wrongBodyLen (got expected : Nat)
  | deserialize
  | notEnough
  | missingFromResponse
  deriving DecidableEq, Repr

/-- Modelled from the spec: the essence of the external `mime` crate's
parse as used at gmail.rs:369 and gmail.rs:490 — extract the lowercased
type and subtype of a media type, ignoring any `;`-separated
parameters; fails on a value without the `type/subtype` shape. -/
def mimeParse (v : List Nat) : Option (List Nat × List Nat) :=
  let main := trimBytes (v.takeWhile (fun b => b ≠ 59))
  match splitByte 47 main with
  | [ty, sub] =>
    if ty ≠ [] ∧ sub ≠ [] then some (lowerBytes ty, lowerBytes sub)
    else none
  | _ => none

/-- Scan the embedded response headers for `content-type` and
`content-length` the way the loop at gmail.rs:407-415 does: names are
compared lowercased, a later match overwrites an earlier one, and a
`content-length` value that does not parse as an integer aborts
immediately. -/
def extractCtCl (hdrs : List (List Nat × List Nat)) :
    Except BatchErr (Option (List Nat) × Option Nat) :=
  hdrs.foldlM
    (fun (p : Option (List Nat) × Option Nat) h => do
      let ct := if lowerBytes h.1 = strBytes "content-type" then some h.2
        else p.1
      if lowerBytes h.1 = strBytes "content-length" then
        match parseNatBytes h.2 with
        | none => .error .clParse
        | some v => .ok (ct, some v)
      else
        .ok (ct, p.2))
    (none, none)

/-- The status ladder of gmail.rs:443-511, applied after the embedded
response has been parsed and its `content-type`/`content-length`
headers extracted: 404 is `Missing`, 429 is `RateLimit`, any other
non-200 status is fatal except a 403 whose parsed error body contains a
`usageLimits`/`userRateLimitExceeded` entry, and a 200 must be
`application/json` with a body length equal to the declared
`content-length` and a deserializable body.  `decT` models the serde
deserialization of the payload, `decE` that of the 403 error body. -/
def respStatus {T : Type} (decT : List Nat → Option T)
    (decE : List Nat → Option EJErr) (id : List Nat) (status : Nat)
    (ctv : List Nat) (cl : Nat) (bodyAfter : List Nat) :
    Except BatchErr (MultiResult T) :=
  if status = 404 then .ok (.Missing id)
  else if status = 429 then .ok (.RateLimit id)
  else if status ≠ 200 then
    if status = 403 then
      match decE bodyAfter with
      | some e =>
        if e.errors.any (fun ee =>
            ee.domain = "usageLimits" ∧ ee.reason = "userRateLimitExceeded")
        then .ok (.RateLimit id)
        else .error (.wrongStatus status id)
      | none => .error .couldNotParse403
    else .error (.wrongStatus status id)
  else
    match mimeParse ctv with
    | none => .error .mimeBad
    | some (ty, sub) =>
      if ty = strBytes "application" ∧ sub = strBytes "json" then
        if cl ≠ bodyAfter.length then
          .error (.wrongBodyLen bodyAfter.length cl)
        else
          match decT bodyAfter with
          | some t => .ok (.Present t)
          | none => .error .deserialize
      else .error .wrongRespType

/-- Parse and classify the embedded response of one part body
(gmail.rs:397-511 after the id has been correlated). -/
def classifyEmb {T : Type} (decT : List Nat → Option T)
    (decE : List Nat → Option EJErr) (id : List Nat) (body : List Nat) :
    Except BatchErr (MultiResult T) :=
  match parseEmbedded body with
  | .errH => .error .embParseErr
  | .partialH => .error .embIncomplete
  | .completeH status hdrs c => do
    let (ct, cl) ← extractCtCl hdrs
    match ct, cl with
    | some ctv, some clv => respStatus decT decE id status ctv clv (body.drop c)
    | _, _ => .error .headersMissing

/-- Classify one outer multipart part (gmail.rs:367-511): check the
part-level `content-type` is `application/http`, correlate the part's
`content-id` of the form `response-req-{n}` with `ids[n]`, then parse
and classify the embedded response. -/
def classifyPart {T : Type} (decT : List Nat → Option T)
    (decE : List Nat → Option EJErr) (ids : List (List Nat)) (p : MPart) :
    Except BatchErr (MultiResult T) :=
  match lookupHdr (strBytes "content-type") p.headers with
  | none => .error .partHeaderMissing
  | some ctv =>
    match mimeParse ctv with
    | none => .error .mimeBad
    | some (ty, sub) =>
      if ty = strBytes "application" ∧ sub = strBytes "http" then
        match lookupHdr (strBytes "content-id") p.headers with
        | none => .error .partHeaderMissing
        | some cid =>
          if (strBytes "response-req-").isPrefixOf cid then
            match parseNatBytes (cid.drop 13) with
            | none => .error .contentIdParse
            | some n =>
              if h : n < ids.length then
                classifyEmb decT decE (ids.get ⟨n, h⟩) p.body
              else .error .contentIdInvalid
          else .error .contentIdInvalid
      else .error .partWrongType

/-- The id carried by an outcome, as the final check at gmail.rs:521-542
reads it: a `Present` payload is identified by its own `id()` accessor,
the other two variants carry the id directly. -/
def outcomeId {T : Type} (idOfT : T → List Nat) : MultiResult T → List Nat
  | .Present t => idOfT t
  | .Missing id => id
  | .RateLimit id => id

/-- The final checks of gmail.rs:514-542: the outcome count must equal
the id count, and every outcome must carry an id that occurs in the
original id list.  (Note the direction of the second check: it is over
outcomes, not over ids.) -/
def verifyOutcomes {T : Type} (idOfT : T → List Nat)
    (ids : List (List Nat)) (out : List (MultiResult T)) :
    Except BatchErr (List (MultiResult T)) :=
  if out.length ≠ ids.length then .error .notEnough
  else if out.all (fun o => ids.any (fun i => outcomeId idOfT o = i)) then
    .ok out
  else .error .missingFromResponse

/-- Classify all parts in order and run the final checks
(gmail.rs:365-545 after `multipart_parse`). -/
def processParts {T : Type} (decT : List Nat → Option T)
    (decE : List Nat → Option EJErr) (idOfT : T → List Nat)
    (ids : List (List Nat)) (parts : List MPart) :
    Except BatchErr (List (MultiResult T)) := do
  let out ← parts.mapM (classifyPart decT decE ids)
  verifyOutcomes idOfT ids out

/-- The whole response-decoding path of `messages_get_common`
(gmail.rs:363-545): split the response body into parts with
`multipart_parse`, then classify and verify. -/
def messages_get_decode {T : Type} (decT : List Nat → Option T)
    (decE : List Nat → Option EJErr) (idOfT : T → List Nat)
    (ids : List (List Nat)) (data boundary : List Nat) :
    Except (MpErr ⊕ BatchErr) (List (MultiResult T)) :=
  match multipart_parse data boundary with
  | .error e => .error (.inl e)
  | .ok parts =>
    match processParts decT decE idOfT ids parts with
    | .error e => .error (.inr e)
    | .ok out => .ok out

/-! ## Cursor pagination engine

`messages.rs` / `history.rs` implement asynchronous `Stream`s;
`gmail.rs:762-798` a synchronous `Iterator` with the same structure.
Page tokens are opaque strings; the items of a page are opaque values
of a type parameter `α`.  The network is abstracted as an oracle from
the page token a fetch was issued with to the fetch's current outcome. -/

/-- One page of a messages listing (`RMessages`): items, optional
continuation token and the result-size estimate. -/
structure PageM (α : Type) where
  messages : List α
  next_page_token : Option String
  result_size_estimate : Nat
  deriving DecidableEq, Repr

/-- One page of a history listing (`RHistory`): records, optional
continuation token and the server's running history id. -/
structure PageH (α : Type) where
  history : List α
  next_page_token : Option String
  history_id : Nat
  deriving DecidableEq, Repr

/-- State of the asynchronous `Messages` stream (messages.rs:88-95).
`fetch` holds, for an in-flight page fetch, the page token it was
spawned with (the `pt` captured at messages.rs:175). -/
structure MessagesSt (α : Type) where
  fin : Bool
  previous_token : Option String
  page_token : Option String
  infl : List α
  fetch : Option (Option String)
  deriving DecidableEq, Repr

/-- State of the asynchronous `History` stream (history.rs:79-86). -/
structure HistorySt (α : Type) where
  fin : Bool
  page_token : Option String
  infl : List α
  final_id : Option Nat
  fetch : Option (Option String)
  deriving DecidableEq, Repr

/-- State of the synchronous `Messages` iterator (gmail.rs:687-693). -/
structure MessagesSy (α : Type) where
  fin : Bool
  previous_token : Option String
  page_token : Option String
  infl : List α
  deriving DecidableEq, Repr

/-- What polling an in-flight fetch observes (the `pin.poll(cx)` at
messages.rs:135 / history.rs:120); errors are elided to a unit. -/
inductive FetchRes (π : Type) where
  | pending
  | okF (o : π)
  | errF
  deriving DecidableEq, Repr

/-- One yielded element: an item or an elided fetch error. -/
inductive ItemRes (α : Type) where
  | okI (a : α)
  | errI
  deriving DecidableEq, Repr

/-- Result of one `poll_next`/`next` call: `fuelOut` is this model's
marker for exhausted fuel and is unreachable with enough fuel. -/
inductive PollRes (α : Type) where
  | fuelOut
  | pending
  | ready (x : Option (ItemRes α))
  deriving DecidableEq, Repr

/-- `Messages::start` (messages.rs:76-85): fresh stream, with
`page_token` primed from the optional resume token and `previous_token`
starting as `None`. -/
def mStart (α : Type) (resume : Option String) : MessagesSt α :=
  ⟨false, none, resume, [], none⟩

/-- `History::start` (history.rs:67-76). -/
def hStart (α : Type) : HistorySt α :=
  ⟨false, none, [], none, none⟩

/-- `Messages::resume_token` (messages.rs:98-100): returns
`previous_token`. -/
def resume_token {α : Type} (st : MessagesSt α) : Option String :=
  st.previous_token

/-- The `Poll::Ready(Ok(o))` branch of `Messages::poll_next`
(messages.rs:137-167): clear the fetch slot, shift `page_token` into
`previous_token`, take the returned continuation token, finish when it
is absent, and append the page's items to the queue. -/
def mOnSuccess {α : Type} (st : MessagesSt α) (o : PageM α) : MessagesSt α :=
  { st with
    fetch := none
    previous_token := st.page_token
    page_token := o.next_page_token
    fin := if o.next_page_token.isNone then true else st.fin
    infl := st.infl ++ o.messages }

/-- The `Poll::Ready(Ok(o))` branch of `History::poll_next`
(history.rs:122-148): same shape, and capture `final_id` from the
page's `history_id` at the same step that sets `fin`. -/
def hOnSuccess {α : Type} (st : HistorySt α) (o : PageH α) : HistorySt α :=
  { st with
    fetch := none
    page_token := o.next_page_token
    fin := if o.next_page_token.isNone then true else st.fin
    final_id := if o.next_page_token.isNone then some o.history_id
      else st.final_id
    infl := st.infl ++ o.history }

/-- The page-update step of the synchronous `Messages::next_`
(gmail.rs:783-796). -/
def syOnSuccess {α : Type} (st : MessagesSy α) (o : PageM α) : MessagesSy α :=
  { st with
    previous_token := st.page_token
    page_token := o.next_page_token
    fin := if o.next_page_token.isNone then true else st.fin
    infl := st.infl ++ o.messages }

/-- `Messages::poll_next` (messages.rs:106-188): the `loop`, one fuel
unit per iteration.  Returns the poll result, the final state, and the
list of page tokens that fetches were started with during this call. -/
def mPollLoop {α : Type} (orc : Option String → FetchRes (PageM α)) :
    Nat → MessagesSt α → PollRes α × MessagesSt α × List (Option String)
  | 0, st => (.fuelOut, st, [])
  | fuel + 1, st =>
    match st.infl with
    | a :: rest => (.ready (some (.okI a)), { st with infl := rest }, [])
    | [] =>
      if st.fin then (.ready none, st, [])
      else
        match st.fetch with
        | some ft =>
          match orc ft with
          | .pending => (.pending, st, [])
          | .errF => (.ready (some .errI), { st with fetch := none }, [])
          | .okF o => mPollLoop orc fuel (mOnSuccess st o)
        | none =>
          let r := mPollLoop orc fuel { st with fetch := some st.page_token }
          (r.1, r.2.1, st.page_token :: r.2.2)

/-- `History::poll_next` (history.rs:91-169), same structure. -/
def hPollLoop {α : Type} (orc : Option String → FetchRes (PageH α)) :
    Nat → HistorySt α → PollRes α × HistorySt α × List (Option String)
  | 0, st => (.fuelOut, st, [])
  | fuel + 1, st =>
    match st.infl with
    | a :: rest => (.ready (some (.okI a)), { st with infl := rest }, [])
    | [] =>
      if st.fin then (.ready none, st, [])
      else
        match st.fetch with
        | some ft =>
          match orc ft with
          | .pending => (.pending, st, [])
          | .errF => (.ready (some .errI), { st with fetch := none }, [])
          | .okF o => hPollLoop orc fuel (hOnSuccess st o)
        | none =>
          let r := hPollLoop orc fuel { st with fetch := some st.page_token }
          (r.1, r.2.1, st.page_token :: r.2.2)

/-- The synchronous `Messages::next_` loop (gmail.rs:762-798): the
oracle here settles immediately, with `.ok` a page and `.error` a
failed fetch (which leaves the cursor state unchanged). -/
def syNextLoop {α : Type} (orc : Option String → Except Unit (PageM α)) :
    Nat → MessagesSy α → PollRes α × MessagesSy α × List (Option String)
  | 0, st => (.fuelOut, st, [])
  | fuel + 1, st =>
    match st.infl with
    | a :: rest => (.ready (some (.okI a)), { st with infl := rest }, [])
    | [] =>
      if st.fin then (.ready none, st, [])
      else
        match orc st.page_token with
        | .error _ => (.ready (some .errI), st, [st.page_token])
        | .ok o =>
          let r := syNextLoop orc fuel (syOnSuccess st o)
          (r.1, r.2.1, st.page_token :: r.2.2)

/-- The panic observable of `Option::unwrap`. -/
inductive UnwrapPanic where
  | unwrapNone
  deriving DecidableEq, Repr

/-- `History::final_id` (history.rs:173-175, gmail.rs:909-911): unwraps
the optional terminal marker; calling it while the marker is still
`None` is a panic, modelled as the `unwrapNone` error. -/
def final_id {α : Type} (st : HistorySt α) : Except UnwrapPanic Nat :=
  match st.final_id with
  | some v => .ok v
  | none => .error .unwrapNone

/-! ## Token gate (gauth.rs) -/

/-- The mutable token state (gauth.rs `GAuthInner`); the expiry is an
absolute time in seconds (the model's `SystemTime`). -/
structure GAuthSt where
  refresh_token : String
  access_token : String
  expiry : Option Nat
  deriving DecidableEq, Repr

/-- The fields of a token-exchange response used by the update
(gauth.rs `RExchange`). -/
structure RExchangeM where
  access_token : String
  expires_in : Nat
  refresh_token : String
  deriving DecidableEq, Repr

/-- The fields of a refresh response used by the update
(gauth.rs `RRefresh`). -/
structure RRefreshM where
  access_token : String
  expires_in : Nat
  deriving DecidableEq, Repr

/-- The expiry instant recorded by `exchange` and `refresh`
(gauth.rs:185-187, gauth.rs:220-222): now plus `expires_in * 2 / 3`
seconds, the multiplication performed in wrapping 64-bit arithmetic as
in a release-mode Rust build. -/
def expiryInstant (now expires_in : Nat) : Nat :=
  now + (expires_in * 2 % 2 ^ 64) / 3

/-- The state update of a successful `exchange` (gauth.rs:189-193). -/
def exchangeUpd (now : Nat) (o : RExchangeM) : GAuthSt :=
  ⟨o.refresh_token, o.access_token, some (expiryInstant now o.expires_in)⟩

/-- The state update of a successful `refresh` (gauth.rs:224-227). -/
def refreshUpd (st : GAuthSt) (now : Nat) (o : RRefreshM) : GAuthSt :=
  { st with
    access_token := o.access_token
    expiry := some (expiryInstant now o.expires_in) }

/-- The refresh predicate of `check_refresh` (gauth.rs:232-248): refresh
when the stored access token is empty, else when the current time is
strictly past the recorded expiry instant, else (including when no
expiry was ever recorded) do nothing. -/
def needsRefresh (st : GAuthSt) (now : Nat) : Bool :=
  if st.access_token = "" then true
  else
    match st.expiry with
    | some et => decide (now > et)
    | none => false

/-! ## Decomposition views of the encoded batch body

These definitions name the byte segments of the encoder output in the
shape in which the boundary scan walks over them; they are related to
`encodeBatch` by proved equations below. -/

/-- CRLF. -/
def crlfB : List Nat := [13, 10]

/-- The opening boundary token `--{boundary}\r\n` for the fixed request
boundary. -/
def startTokB : List Nat := [45, 45] ++ boundB ++ [13, 10]

/-- The inter-part token `\r\n--{boundary}`. -/
def interB : List Nat := [13, 10, 45, 45] ++ boundB

/-- The closing `--{boundary}--\r\n`. -/
def termB : List Nat := strBytes "--" ++ boundB ++ strBytes "--\r\n"

/-- The scan context `multipart_parse` builds for the request boundary
and a given data length. -/
def mpCtxB (dl : Nat) : MpCtx :=
  ⟨startTokB, crlfB ++ startTokB, interB, dl⟩

/-- The fixed first framing header line. -/
def ctLineB : List Nat := strBytes "Content-Type: application/http"

/-- The prefix of the second framing header line. -/
def cidLineB : List Nat := strBytes "Content-ID: req-"

/-- The prefix of the embedded GET request line. -/
def getLineB : List Nat := strBytes "GET /gmail/v1/users/me/messages/"

/-- The query-string separator of the embedded GET request line. -/
def fmtSepB : List Nat := strBytes "?format="

/-- The raw body candidate of encoded part `n`: everything between the
opening boundary line and the following inter-part token. -/
def contentB (n : Nat) (id fmt : List Nat) : List Nat :=
  ctLineB ++ crlfB ++ cidLineB ++ natBytes n ++ crlfB ++ crlfB
    ++ getLineB ++ id ++ fmtSepB ++ fmt ++ crlfB ++ crlfB

/-- What follows the inter-part token after encoded part `n - 1`: the
terminator tail for the last part, else a CRLF and the next part's
content followed again by the inter-part token. -/
def afterView (fmt : List Nat) : Nat → List (List Nat) → List Nat
  | _, [] => [45, 45, 13, 10]
  | n, id :: r => crlfB ++ contentB n id fmt ++ interB ++ afterView fmt (n + 1) r

/-- The raw part bodies the scan should produce, in order, numbering
from `n`. -/
def contentsView (fmt : List Nat) : Nat → List (List Nat) → List (List Nat)
  | _, [] => []
  | n, id :: r => contentB n id fmt :: contentsView fmt (n + 1) r

/-- Exact scan fuel needed per encoded part: one unit per accumulated
byte, one for the inter-part hit, one for the part-or-end step. -/
def scanFuel (fmt : List Nat) : Nat → List (List Nat) → Nat
  | _, [] => 0
  | n, id :: r => (contentB n id fmt).length + 2 + scanFuel fmt (n + 1) r

/-- The parsed `MPart` that decoding encoded part `n` must yield. -/
def partStruct (n : Nat) (id fmt : List Nat) : MPart :=
  ⟨[(strBytes "content-type", strBytes "application/http"),
    (strBytes "content-id", strBytes "req-" ++ natBytes n)],
   getLineB ++ id ++ fmtSepB ++ fmt ++ crlfB ++ crlfB⟩

/-- The parsed parts of the whole encoded batch, numbering from `n`. -/
def parsedView (fmt : List Nat) : Nat → List (List Nat) → List MPart
  | _, [] => []
  | n, id :: r => partStruct n id fmt :: parsedView fmt (n + 1) r

/-! ## Scan-run composition framework

To reason about runs of the fuel-indexed scanners without threading
exact fuel arithmetic through every composite proof, a run fragment is
recorded as: some fuel amount `k` (bounded by the bytes it consumes,
resp. by a potential) turns the scanner at one configuration into the
scanner at a later configuration, uniformly in the remaining fuel. -/

/-- A configuration of the boundary scan. -/
structure MCfg where
  s : MpState
  pos : Nat
  rem : List Nat
  acc : List Nat
  parts : List (List Nat)

/-- `StepsTo cx a b`: the scan moves from configuration `a` to
configuration `b` using `k` loop iterations, where `k` is at most the
number of bytes consumed. -/
def StepsTo (cx : MpCtx) (a b : MCfg) : Prop :=
  ∃ k, k + b.rem.length ≤ a.rem.length ∧
    ∀ f, mpScan cx (f + k) a.s a.pos a.rem a.acc a.parts
        = mpScan cx f b.s b.pos b.rem b.acc b.parts

/-- `FinishesTo cx a r`: the scan started at `a` returns `r` within
`a.rem.length + 1` loop iterations. -/
def FinishesTo (cx : MpCtx) (a : MCfg)
    (r : Except MpErr (List (List Nat))) : Prop :=
  ∃ k, k ≤ a.rem.length + 1 ∧
    ∀ f, mpScan cx (f + k) a.s a.pos a.rem a.acc a.parts = r

/-- A configuration of the per-part header scan. -/
structure PCfg where
  s : PState
  rem : List Nat
  hdr : List Nat
  hdrs : List (List Nat)

/-- Iteration potential of a header-scan configuration: two per
remaining byte plus one for the non-consuming `HeaderOrBody` state. -/
def pPhi (c : PCfg) : Nat :=
  2 * c.rem.length + (if c.s = .headerOrBody then 1 else 0)

/-- `PStepsTo a b`: the header scan moves from `a` to `b` in `k`
iterations, `k` bounded by the potential drop. -/
def PStepsTo (a b : PCfg) : Prop :=
  ∃ k, k + pPhi b ≤ pPhi a ∧
    ∀ f, partScan (f + k) a.s a.rem a.hdr a.hdrs
        = partScan f b.s b.rem b.hdr b.hdrs

/-- `PFinishes a r`: the header scan started at `a` returns `r` within
`pPhi a + 1` iterations. -/
def PFinishes (a : PCfg)
    (r : Except MpErr (List (List Nat) × List Nat)) : Prop :=
  ∃ k, k ≤ pPhi a + 1 ∧ ∀ f, partScan (f + k) a.s a.rem a.hdr a.hdrs = r


/-! ## Theorems -/

theorem mPollLoop_fetch_inv {α : Type} (orc : Option String → FetchRes (PageM α)) :
    ∀ (f : Nat) (st : MessagesSt α),
      (∀ t, st.fetch = some t → st.page_token = t) →
      ∀ t, ((mPollLoop orc f st).2.1).fetch = some t →
        ((mPollLoop orc f st).2.1).page_token = t := by
  intro f
  induction f with
  | zero => intro st h t ht; exact h t ht
  | succ f ih =>
    rintro ⟨fin, prev, page, infl, fe⟩ h t
    cases infl with
    | cons a rest => simpa [mPollLoop] using h t
    | nil =>
      cases fin with
      | true => simpa [mPollLoop] using h t
      | false =>
        cases fe with
        | none =>
          simp only [mPollLoop]
          intro hres
          exact ih _ (by intro u hu; simp at hu ⊢; exact hu) t hres
        | some ft =>
          cases horc : orc ft with
          | pending => simpa [mPollLoop, horc] using h t
          | errF => simp [mPollLoop, horc]
          | okF o =>
            simp only [mPollLoop, horc]
            intro hres
            exact ih _ (by simp [mOnSuccess]) t hres

theorem hPollLoop_final_inv {α : Type} (orc : Option String → FetchRes (PageH α)) :
    ∀ (f : Nat) (st : HistorySt α),
      (st.fin = false → st.final_id = none) →
      ((hPollLoop orc f st).2.1.fin = false →
        (hPollLoop orc f st).2.1.final_id = none) := by
  intro f
  induction f with
  | zero => intro st h; exact h
  | succ f ih =>
    rintro ⟨fin, page, infl, fid, fe⟩ h
    cases infl with
    | cons a rest => simpa [hPollLoop] using h
    | nil =>
      cases fin with
      | true => simp [hPollLoop]
      | false =>
        cases fe with
        | none =>
          simp only [hPollLoop]
          exact ih _ (fun _ => h rfl)
        | some ft =>
          cases horc : orc ft with
          | pending => simpa [hPollLoop, horc] using h
          | errF => simpa [hPollLoop, horc] using h
          | okF o =>
            simp only [hPollLoop, horc]
            refine ih _ ?_
            intro hfin
            simp only [hOnSuccess] at hfin ⊢
            cases hnt : o.next_page_token with
            | some tk => simpa [hnt] using h rfl
            | none => simp [hnt] at hfin

/-- C9: `exchange` and `refresh` record the expiry proactively as
`now + expires_in * 2 / 3` (the multiplication wraps at 2^64 as in
release Rust, so the hypothesis keeps it in range), and `check_refresh`
fires exactly when the stored access token is empty or the current time
is strictly past the recorded two-thirds instant; the recorded instant
never waits for the literal expiry `now + expires_in`. -/
theorem c9_expiry_two_thirds
    (st st' : GAuthSt) (now now' e : Nat) (o : RRefreshM) (oe : RExchangeM)
    (ho : o.expires_in < 2 ^ 63) (hoe : oe.expires_in < 2 ^ 63)
    (he : 0 < e) :
    (refreshUpd st now o).expiry = some (now + o.expires_in * 2 / 3)
    ∧ (exchangeUpd now oe).expiry = some (now + oe.expires_in * 2 / 3)
    ∧ (needsRefresh st' now' = true ↔
        st'.access_token = "" ∨ ∃ et, st'.expiry = some et ∧ now' > et)
    ∧ e * 2 / 3 < e := by
  refine ⟨?_, ?_, ?_, ?_⟩
  · simp only [refreshUpd, expiryInstant]
    rw [Nat.mod_eq_of_lt (by omega)]
  · simp only [exchangeUpd, expiryInstant]
    rw [Nat.mod_eq_of_lt (by omega)]
  · simp only [needsRefresh]
    by_cases ha : st'.access_token = ""
    · simp [ha]
    · simp only [ha, if_false]
      match hx : st'.expiry with
      | some et => simp [ha]
      | none => simp [ha]
  · rw [Nat.div_lt_iff_lt_mul (by omega)]
    omega

/-- Witness for `c9_expiry_two_thirds` at a concrete state and
3600-second lifetime. -/
theorem c9_expiry_two_thirds_witness :
    (refreshUpd ⟨"r", "t", some 5⟩ 100 ⟨"t2", 3600⟩).expiry
        = some (100 + 3600 * 2 / 3)
    ∧ (exchangeUpd 100 ⟨"t3", 3600, "r3"⟩).expiry = some (100 + 3600 * 2 / 3)
    ∧ (needsRefresh ⟨"r", "", none⟩ 7 = true ↔
        (GAuthSt.mk "r" "" none).access_token = ""
          ∨ ∃ et, (GAuthSt.mk "r" "" none).expiry = some et ∧ 7 > et)
    ∧ 9 * 2 / 3 < 9 :=
  c9_expiry_two_thirds ⟨"r", "t", some 5⟩ ⟨"r", "", none⟩ 100 7 9
    ⟨"t2", 3600⟩ ⟨"t3", 3600, "r3"⟩ (by decide) (by decide) (by decide)

/-- C8: once `fin` is set and the buffered queue is empty, a poll of the
asynchronous `Messages` stream, the asynchronous `History` stream, or
the synchronous `Messages` iterator returns end-of-sequence at once,
leaves the state unchanged, and starts no fetch; repeated polls
therefore keep doing the same. -/
theorem c8_idempotent_termination {α : Type}
    (orcM : Option String → FetchRes (PageM α))
    (orcH : Option String → FetchRes (PageH α))
    (orcS : Option String → Except Unit (PageM α))
    (stM : MessagesSt α) (stH : HistorySt α) (stS : MessagesSy α)
    (f g k : Nat)
    (hM : stM.fin = true) (hMq : stM.infl = [])
    (hH : stH.fin = true) (hHq : stH.infl = [])
    (hS : stS.fin = true) (hSq : stS.infl = []) :
    mPollLoop orcM (f + 1) stM = (.ready none, stM, [])
    ∧ hPollLoop orcH (g + 1) stH = (.ready none, stH, [])
    ∧ syNextLoop orcS (k + 1) stS = (.ready none, stS, []) := by
  refine ⟨?_, ?_, ?_⟩
  · simp [mPollLoop, hMq, hM]
  · simp [hPollLoop, hHq, hH]
  · simp [syNextLoop, hSq, hS]

/-- Witness for `c8_idempotent_termination` at concrete finished
states. -/
theorem c8_idempotent_termination_witness :
    mPollLoop (α := Nat) (fun _ => .pending) 3 ⟨true, none, none, [], none⟩
        = (.ready none, ⟨true, none, none, [], none⟩, [])
    ∧ hPollLoop (α := Nat) (fun _ => .pending) 1 ⟨true, none, [], some 7, none⟩
        = (.ready none, ⟨true, none, [], some 7, none⟩, [])
    ∧ syNextLoop (α := Nat) (fun _ => .error ()) 5 ⟨true, some "p", none, []⟩
        = (.ready none, ⟨true, some "p", none, []⟩, []) :=
  c8_idempotent_termination (fun _ => .pending) (fun _ => .pending)
    (fun _ => .error ()) ⟨true, none, none, [], none⟩
    ⟨true, none, [], some 7, none⟩ ⟨true, some "p", none, []⟩ 2 0 4
    rfl rfl rfl rfl rfl rfl

/-- C7: `previous_token` starts as `None` (so `resume_token()` is `None`
before any fetch completes, even when a resume token primed
`page_token`), `resume_token()` returns `previous_token`, a fetch is
spawned carrying the current `page_token`, and the success step moves
exactly that token into `previous_token` while `page_token` becomes the
returned continuation token; the spawn-token/`page_token` agreement is
an invariant of `poll_next`.  Hence `resume_token()` always yields the
token one page behind the current one. -/
theorem c7_resume_token {α : Type} (resume : Option String)
    (st st2 : MessagesSt α) (o : PageM α) (ft : Option String)
    (orc : Option String → FetchRes (PageM α)) (f : Nat)
    (hf : st.fetch = some ft) (hinv : st.page_token = ft)
    (hq : st2.infl = []) (hfin : st2.fin = false) (hfe : st2.fetch = none)
    (hp : orc st2.page_token = .pending) :
    resume_token (mStart α resume) = none
    ∧ (∀ s : MessagesSt α, resume_token s = s.previous_token)
    ∧ (mOnSuccess st o).previous_token = ft
    ∧ (mOnSuccess st o).page_token = o.next_page_token
    ∧ mPollLoop orc (f + 2) st2
        = (.pending, { st2 with fetch := some st2.page_token },
            [st2.page_token])
    ∧ (∀ (g : Nat) (s : MessagesSt α),
        (∀ t, s.fetch = some t → s.page_token = t) →
        ∀ t, ((mPollLoop orc g s).2.1).fetch = some t →
          ((mPollLoop orc g s).2.1).page_token = t) := by
  refine ⟨rfl, fun s => rfl, ?_, rfl, ?_, mPollLoop_fetch_inv orc⟩
  · simp [mOnSuccess, hinv]
  · simp [mPollLoop, hq, hfin, hfe, hp]

/-- Witness for `c7_resume_token` at a concrete stream state. -/
theorem c7_resume_token_witness :
    resume_token (mStart Nat (some "r0")) = none
    ∧ (∀ s : MessagesSt Nat, resume_token s = s.previous_token)
    ∧ (mOnSuccess ⟨false, none, some "p1", [], some (some "p1")⟩
        (PageM.mk [5] (some "p2") 1)).previous_token = some "p1"
    ∧ (mOnSuccess ⟨false, none, some "p1", [], some (some "p1")⟩
        (PageM.mk [5] (some "p2") 1)).page_token
        = (PageM.mk (α := Nat) [5] (some "p2") 1).next_page_token
    ∧ mPollLoop (fun _ => .pending) 2 ⟨false, none, some "q", [], none⟩
        = (.pending,
            { MessagesSt.mk (α := Nat) false none (some "q") [] none with
              fetch := some (MessagesSt.mk (α := Nat) false none (some "q")
                [] none).page_token },
            [(MessagesSt.mk (α := Nat) false none (some "q") [] none).page_token])
    ∧ (∀ (g : Nat) (s : MessagesSt Nat),
        (∀ t, s.fetch = some t → s.page_token = t) →
        ∀ t, ((mPollLoop (fun _ => .pending) g s).2.1).fetch = some t →
          ((mPollLoop (fun _ => .pending) g s).2.1).page_token = t) :=
  c7_resume_token (some "r0") ⟨false, none, some "p1", [], some (some "p1")⟩
    ⟨false, none, some "q", [], none⟩ (PageM.mk [5] (some "p2") 1)
    (some "p1") (fun _ => .pending) 0 rfl rfl rfl rfl rfl rfl

/-- C10: `final_id()` unwraps the optional terminal marker, so it
panics (modelled as the `unwrapNone` error) on a fresh stream and on
every reachable state that is not finished; the marker is assigned
exactly at the fetch-completion step that receives no continuation
token, the same step that sets `fin`, after which `final_id()` returns
its value. -/
theorem c10_final_id_panics {α : Type}
    (orc : Option String → FetchRes (PageH α)) (f : Nat)
    (st st1 : HistorySt α) (o : PageH α)
    (h1 : st1.fin = false → st1.final_id = none) :
    final_id (hStart α) = .error .unwrapNone
    ∧ (hStart α).fin = false
    ∧ (o.next_page_token = none →
        (hOnSuccess st o).final_id = some o.history_id
        ∧ (hOnSuccess st o).fin = true)
    ∧ (∀ tk, o.next_page_token = some tk →
        (hOnSuccess st o).final_id = st.final_id
        ∧ (hOnSuccess st o).fin = st.fin)
    ∧ (∀ s : HistorySt α, s.final_id = none → final_id s = .error .unwrapNone)
    ∧ (∀ (v : Nat) (s : HistorySt α), s.final_id = some v → final_id s = .ok v)
    ∧ ((hPollLoop orc f st1).2.1.fin = false →
        final_id ((hPollLoop orc f st1).2.1) = .error .unwrapNone) := by
  refine ⟨rfl, rfl, ?_, ?_, ?_, ?_, ?_⟩
  · intro hn; simp [hOnSuccess, hn]
  · intro tk hn; simp [hOnSuccess, hn]
  · intro s hs; simp [final_id, hs]
  · intro v s hs; simp [final_id, hs]
  · intro hfin
    have := hPollLoop_final_inv orc f st1 h1 hfin
    simp [final_id, this]

/-- Witness for `c10_final_id_panics` at a concrete stream state. -/
theorem c10_final_id_panics_witness :
    final_id (hStart Nat) = .error .unwrapNone
    ∧ (hStart Nat).fin = false
    ∧ ((PageH.mk (α := Nat) [3] none 12).next_page_token = none →
        (hOnSuccess ⟨false, some "p", [], none, some (some "p")⟩
          (PageH.mk [3] none 12)).final_id
            = some (PageH.mk (α := Nat) [3] none 12).history_id
        ∧ (hOnSuccess ⟨false, some "p", [], none, some (some "p")⟩
            (PageH.mk [3] none 12)).fin = true)
    ∧ (∀ tk, (PageH.mk (α := Nat) [3] none 12).next_page_token = some tk →
        (hOnSuccess ⟨false, some "p", [], none, some (some "p")⟩
          (PageH.mk [3] none 12)).final_id
            = (HistorySt.mk (α := Nat) false (some "p") [] none
                (some (some "p"))).final_id
        ∧ (hOnSuccess ⟨false, some "p", [], none, some (some "p")⟩
            (PageH.mk [3] none 12)).fin
            = (HistorySt.mk (α := Nat) false (some "p") [] none
                (some (some "p"))).fin)
    ∧ (∀ s : HistorySt Nat, s.final_id = none →
        final_id s = .error .unwrapNone)
    ∧ (∀ (v : Nat) (s : HistorySt Nat), s.final_id = some v →
        final_id s = .ok v)
    ∧ ((hPollLoop (α := Nat) (fun _ => .pending) 1
          ⟨false, none, [], none, none⟩).2.1.fin = false →
        final_id ((hPollLoop (α := Nat) (fun _ => .pending) 1
          ⟨false, none, [], none, none⟩).2.1) = .error .unwrapNone) :=
  c10_final_id_panics (fun _ => .pending) 1
    ⟨false, some "p", [], none, some (some "p")⟩
    ⟨false, none, [], none, none⟩ (PageH.mk [3] none 12)
    (fun _ => rfl)

/-- C5: classification of a correlated, parsed embedded response whose
`content-type` and `content-length` headers were extracted: 404 yields
`Missing(id)`, 429 yields `RateLimit(id)`, any status outside
200/404/429/403 is a fatal error naming the status and the id, a 200
whose body is `application/json`, matches the declared length and
deserializes yields `Present`, and a 200 with any other parsed content
type is a fatal type-mismatch error. -/
theorem c5_status_classification {T : Type} (decT : List Nat → Option T)
    (decE : List Nat → Option EJErr) (id ctv : List Nat) (cl : Nat)
    (body : List Nat) :
    respStatus decT decE id 404 ctv cl body = .ok (.Missing id)
    ∧ respStatus decT decE id 429 ctv cl body = .ok (.RateLimit id)
    ∧ (∀ status, status ≠ 200 → status ≠ 404 → status ≠ 429 →
        status ≠ 403 →
        respStatus decT decE id status ctv cl body
          = .error (.wrongStatus status id))
    ∧ (∀ t : T, mimeParse ctv
          = some (strBytes "application", strBytes "json") →
        cl = body.length → decT body = some t →
        respStatus decT decE id 200 ctv cl body = .ok (.Present t))
    ∧ (∀ ty sub, mimeParse ctv = some (ty, sub) →
        ¬(ty = strBytes "application" ∧ sub = strBytes "json") →
        respStatus decT decE id 200 ctv cl body = .error .wrongRespType) := by
  refine ⟨rfl, rfl, ?_, ?_, ?_⟩
  · intro status h200 h404 h429 h403
    simp [respStatus, h200, h404, h429, h403]
  · intro t hm hcl hd
    simp [respStatus, hm, hcl, hd]
  · intro ty sub hm hne
    simp [respStatus, hm, hne]

/-- Witness for `c5_status_classification` at concrete inputs,
exercising the 404 case and the other-status case at 500. -/
theorem c5_status_classification_witness :
    respStatus (fun l => some l) (fun _ => none) [97]
        404 (strBytes "application/json") 2 [123, 125]
        = .ok (.Missing [97])
    ∧ respStatus (fun l => some l) (fun _ => none) [97]
        500 (strBytes "application/json") 2 [123, 125]
        = .error (.wrongStatus 500 [97])
    ∧ respStatus (fun l => some l) (fun _ => none) [97]
        200 (strBytes "application/json") 2 [123, 125]
        = .ok (.Present [123, 125]) :=
  have h := c5_status_classification (fun l => some l) (fun _ => none)
    [97] (strBytes "application/json") 2 [123, 125]
  ⟨h.1,
   h.2.2.1 500 (by decide) (by decide) (by decide) (by decide),
   h.2.2.2.1 [123, 125] (by decide) (by decide) rfl⟩

/-- C2 counterexample: the claim says a 403 whose error body carries
domain `usageLimits` with reason `rateLimitExceeded` is classified
`RateLimited(id)`; the code at gmail.rs:461-462 compares the reason
against `userRateLimitExceeded` only, so this part makes the whole
batch fail with the wrong-status error instead. -/
theorem c2_rate_limit_reason_cex :
    respStatus (T := Unit) (fun _ => none)
        (fun _ => some ⟨[⟨"usageLimits", "rateLimitExceeded", "quota"⟩],
          403, "quota"⟩)
        [97] 403 (strBytes "application/json") 0 []
      = .error (.wrongStatus 403 [97])
    ∧ respStatus (T := Unit) (fun _ => none)
        (fun _ => some ⟨[⟨"usageLimits", "rateLimitExceeded", "quota"⟩],
          403, "quota"⟩)
        [97] 403 (strBytes "application/json") 0 []
      ≠ .ok (.RateLimit [97]) := by
  refine ⟨rfl, ?_⟩
  intro h
  have h2 : (Except.error (BatchErr.wrongStatus 403 [97])
      : Except BatchErr (MultiResult Unit))
      = Except.ok (MultiResult.RateLimit [97]) := h
  exact Except.noConfusion h2

/-- C2 amended: a 403 is reclassified `RateLimit(id)` exactly when the
parsed error body has at least one entry with domain `usageLimits` and
reason `userRateLimitExceeded` (reason `rateLimitExceeded` alone does
not qualify); a parsed body without such an entry fails the batch with
the wrong-status error naming 403 and the id, and a body that does not
parse fails it with the parse error. -/
theorem c2_quota_403 {T : Type} (decT : List Nat → Option T)
    (decE : List Nat → Option EJErr) (id ctv : List Nat) (cl : Nat)
    (body : List Nat) (e : EJErr) :
    (decE body = some e →
      (e.errors.any (fun ee => ee.domain = "usageLimits"
          ∧ ee.reason = "userRateLimitExceeded")) = true →
      respStatus decT decE id 403 ctv cl body = .ok (.RateLimit id))
    ∧ (decE body = some e →
      (e.errors.any (fun ee => ee.domain = "usageLimits"
          ∧ ee.reason = "userRateLimitExceeded")) = false →
      respStatus decT decE id 403 ctv cl body
        = .error (.wrongStatus 403 id))
    ∧ (decE body = none →
      respStatus decT decE id 403 ctv cl body = .error .couldNotParse403) := by
  refine ⟨?_, ?_, ?_⟩
  · intro hd ha
    simp only [respStatus, hd, ha]
    simp
  · intro hd ha
    simp only [respStatus, hd, ha]
    simp
  · intro hd
    simp only [respStatus, hd]
    simp

/-- Witness for `c2_quota_403` at a concrete 403 error body whose
single entry carries reason `userRateLimitExceeded`. -/
theorem c2_quota_403_witness :
    respStatus (T := Unit) (fun _ => none)
        (fun _ => some ⟨[⟨"usageLimits", "userRateLimitExceeded", "q"⟩],
          403, "q"⟩)
        [97] 403 (strBytes "application/json") 0 []
      = .ok (.RateLimit [97]) :=
  (c2_quota_403 (fun _ => none)
    (fun _ => some ⟨[⟨"usageLimits", "userRateLimitExceeded", "q"⟩], 403, "q"⟩)
    [97] (strBytes "application/json") 0 []
    ⟨[⟨"usageLimits", "userRateLimitExceeded", "q"⟩], 403, "q"⟩).1
    rfl (by decide)

/-- C6 counterexample: the claim says any part with a declared
`content-length` that differs from the actual embedded body length
aborts the batch; but the length comparison at gmail.rs:499-504 sits
on the status-200 path only, so a 404 part declaring length 50 over a
48-byte body is classified `Missing(id)` and no error is raised. -/
theorem c6_length_check_cex :
    respStatus (T := Unit) (fun _ => none) (fun _ => none)
        [97] 404 (strBytes "application/json") 50 (List.replicate 48 120)
      = .ok (.Missing [97])
    ∧ (50 : Nat) ≠ (List.replicate 48 120).length := by
  exact ⟨rfl, by decide⟩

/-- C6 amended: the declared `content-length` is compared against the
observed embedded body length only on the status-200 path (after the
JSON content-type check); there a mismatch aborts the whole batch with
the integrity error carrying both lengths. -/
theorem c6_length_mismatch_200 {T : Type} (decT : List Nat → Option T)
    (decE : List Nat → Option EJErr) (id ctv : List Nat) (cl : Nat)
    (body : List Nat)
    (hm : mimeParse ctv = some (strBytes "application", strBytes "json"))
    (hne : cl ≠ body.length) :
    respStatus decT decE id 200 ctv cl body
      = .error (.wrongBodyLen body.length cl) := by
  simp [respStatus, hm, hne]

/-- Witness for `c6_length_mismatch_200`: declared length 50 against a
48-byte JSON body on the 200 path. -/
theorem c6_length_mismatch_200_witness :
    respStatus (T := Unit) (fun _ => none) (fun _ => none)
        [97] 200 (strBytes "application/json") 50 (List.replicate 48 120)
      = .error (.wrongBodyLen (List.replicate 48 120).length 50) :=
  c6_length_mismatch_200 (fun _ => none) (fun _ => none) [97]
    (strBytes "application/json") 50 (List.replicate 48 120)
    (by decide) (by decide)

set_option maxRecDepth 40000 in
/-- C1: evaluation of the batch decode at a response in which both
parts carry `Content-ID: response-req-0` with a 404 inside, for the id
list `["a", "b"]` (bytes `[97]`, `[98]`): the decode returns
`[Missing a, Missing a]` — id `b` is omitted and id `a` duplicated,
yet the final checks of gmail.rs:514-542 pass, because they only
compare the counts and check that every outcome's id occurs in the id
list, never that every id is covered exactly once. -/
theorem c1_completeness_gap :
    messages_get_decode (T := List Nat) (fun _ => none) (fun _ => none)
        (fun t => t) [[97], [98]]
        (strBytes ("--B\r\ncontent-type: application/http\r\ncontent-id: response-req-0\r\n\r\nHTTP/1.1 404 Not Found\r\ncontent-type: application/json\r\ncontent-length: 2\r\n\r\n\x7b\x7d\r\n--B\r\ncontent-type: application/http\r\ncontent-id: response-req-0\r\n\r\nHTTP/1.1 404 Not Found\r\ncontent-type: application/json\r\ncontent-length: 2\r\n\r\n\x7b\x7d\r\n--B--\r\n"))
        (strBytes "B")
      = .ok [.Missing [97], .Missing [97]]
    ∧ ∀ o ∈ [MultiResult.Missing (T := List Nat) [97], .Missing [97]],
        outcomeId (fun t => t) o ≠ [98] := by
  exact ⟨rfl, by decide⟩

/-- C3: `multipart_parse` is not total: a part whose header line has no
colon drives the header-splitting code into an out-of-bounds `t[1]`
index (a panic), and a buffer that ends with a lone byte right after an
inter-part boundary drives the debug `println` into an out-of-bounds
slice `data[pos..pos + 2]` (a panic); both are modelled as the
dedicated panic errors, not ordinary framing errors. -/
theorem c3_parser_panics :
    multipart_parse (strBytes "--b\r\nfoo\r\n\r\nBODY\r\n--b--\r\n")
        (strBytes "b")
      = .error .rustPanicNoColon
    ∧ multipart_parse (strBytes "--b\r\nX\r\n--bZ") (strBytes "b")
      = .error .rustPanicSliceOOB := by
  exact ⟨rfl, rfl⟩

/-- C4 counterexample: for a batch of zero ids the encoder emits only
the closing boundary, which `multipart_parse` rejects outright — it
does not decode to zero parts as the round-trip claim would require. -/
theorem c4_empty_batch_cex :
    multipart_parse (encodeBatch (strBytes "minimal") []) boundB
      = .error (.frame 0 42 0 "did not start with starting boundary") := by
  rfl

theorem stepsTo_trans {cx : MpCtx} {a b c : MCfg}
    (h₁ : StepsTo cx a b) (h₂ : StepsTo cx b c) : StepsTo cx a c := by
  obtain ⟨k₁, hb₁, he₁⟩ := h₁
  obtain ⟨k₂, hb₂, he₂⟩ := h₂
  refine ⟨k₂ + k₁, by omega, fun f => ?_⟩
  rw [← Nat.add_assoc, he₁ (f + k₂), he₂ f]

theorem stepsTo_finishes {cx : MpCtx} {a b : MCfg}
    {r : Except MpErr (List (List Nat))}
    (h₁ : StepsTo cx a b) (h₂ : FinishesTo cx b r) : FinishesTo cx a r := by
  obtain ⟨k₁, hb₁, he₁⟩ := h₁
  obtain ⟨k₂, hb₂, he₂⟩ := h₂
  refine ⟨k₂ + k₁, by omega, fun f => ?_⟩
  rw [← Nat.add_assoc, he₁ (f + k₂), he₂ f]

theorem finishes_run {cx : MpCtx} {a : MCfg} {r : Except MpErr (List (List Nat))}
    (h : FinishesTo cx a r) :
    mpScan cx (a.rem.length + 1) a.s a.pos a.rem a.acc a.parts = r := by
  obtain ⟨k, hk, he⟩ := h
  have hs : a.rem.length + 1 = (a.rem.length + 1 - k) + k := by omega
  rw [hs]
  exact he _

theorem pStepsTo_trans {a b c : PCfg}
    (h₁ : PStepsTo a b) (h₂ : PStepsTo b c) : PStepsTo a c := by
  obtain ⟨k₁, hb₁, he₁⟩ := h₁
  obtain ⟨k₂, hb₂, he₂⟩ := h₂
  refine ⟨k₂ + k₁, by omega, fun f => ?_⟩
  rw [← Nat.add_assoc, he₁ (f + k₂), he₂ f]

theorem pStepsTo_finishes {a b : PCfg}
    {r : Except MpErr (List (List Nat) × List Nat)}
    (h₁ : PStepsTo a b) (h₂ : PFinishes b r) : PFinishes a r := by
  obtain ⟨k₁, hb₁, he₁⟩ := h₁
  obtain ⟨k₂, hb₂, he₂⟩ := h₂
  refine ⟨k₂ + k₁, by omega, fun f => ?_⟩
  rw [← Nat.add_assoc, he₁ (f + k₂), he₂ f]

theorem pFinishes_run {a : PCfg} {r : Except MpErr (List (List Nat) × List Nat)}
    (h : PFinishes a r) :
    partScan (pPhi a + 1) a.s a.rem a.hdr a.hdrs = r := by
  obtain ⟨k, hk, he⟩ := h
  have hs : pPhi a + 1 = (pPhi a + 1 - k) + k := by omega
  rw [hs]
  exact he _

theorem isPrefixOf_self_append (l t : List Nat) : l.isPrefixOf (l ++ t) = true := by
  induction l with
  | nil => simp [List.isPrefixOf]
  | cons a l ih => simpa [List.isPrefixOf] using ih

theorem isPrefixOf_head_ne (a b : Nat) (s r : List Nat) (h : a ≠ b) :
    (a :: s).isPrefixOf (b :: r) = false := by
  simp [List.isPrefixOf, h]

theorem follows_head_ne (a b : Nat) (s r : List Nat) (h : a ≠ b) :
    follows (a :: s) (b :: r) = false := by
  simp [follows, isPrefixOf_head_ne a b s r h]

theorem follows_self_append (l t : List Nat) (ht : t ≠ []) :
    follows l (l ++ t) = true := by
  have hl : 0 < t.length := List.length_pos.mpr ht
  simp [follows, isPrefixOf_self_append, List.length_append]
  omega

theorem follows_inter_ne (dl : Nat) (x : Nat) (r : List Nat) (hx : x ≠ 13) :
    follows (mpCtxB dl).inter (x :: r) = false := by
  show follows (13 :: (10 :: 45 :: 45 :: boundB)) (x :: r) = false
  exact follows_head_ne 13 x _ r (fun he => hx he.symm)

theorem follows_inter_crlf (dl : Nat) (rem : List Nat)
    (hb : (45 :: 45 :: boundB).isPrefixOf rem = false) :
    follows (mpCtxB dl).inter (13 :: 10 :: rem) = false := by
  show follows (13 :: 10 :: 45 :: 45 :: boundB) (13 :: 10 :: rem) = false
  simp [follows, List.isPrefixOf, hb]

theorem follows_crlf_cons (rem : List Nat) (hr : rem ≠ []) :
    follows [13, 10] (13 :: 10 :: rem) = true := by
  have hl : 0 < rem.length := List.length_pos.mpr hr
  simp [follows, List.isPrefixOf]
  omega

theorem steps_chunk (dl : Nat) (X : List Nat) (hX : ∀ b ∈ X, b ≠ 13) :
    ∀ (pos : Nat) (rem acc : List Nat) (parts : List (List Nat)),
    StepsTo (mpCtxB dl) ⟨.partS, pos, X ++ rem, acc, parts⟩
      ⟨.partS, pos + X.length, rem, acc ++ X, parts⟩ := by
  induction X with
  | nil =>
    intro pos rem acc parts
    refine ⟨0, by simp, fun f => ?_⟩
    simp
  | cons x X ih =>
    intro pos rem acc parts
    have hx : x ≠ 13 := hX x (by simp)
    have hX' : ∀ b ∈ X, b ≠ 13 := fun b hb => hX b (by simp [hb])
    have step1 : StepsTo (mpCtxB dl) ⟨.partS, pos, (x :: X) ++ rem, acc, parts⟩
        ⟨.partS, pos + 1, X ++ rem, acc ++ [x], parts⟩ := by
      refine ⟨1, by simp [List.length_append]; omega, fun f => ?_⟩
      show mpScan (mpCtxB dl) (f + 1) .partS pos (x :: (X ++ rem)) acc parts = _
      simp only [mpScan]
      rw [follows_inter_ne dl x (X ++ rem) hx]
      simp
    have step2 := ih hX' (pos + 1) rem (acc ++ [x]) parts
    have h := stepsTo_trans step1 step2
    have e1 : pos + (x :: X).length = pos + 1 + X.length := by simp; omega
    have e2 : acc ++ (x :: X) = (acc ++ [x]) ++ X := by simp
    rw [e1, e2]
    exact h

theorem steps_crlf (dl pos : Nat) (rem acc : List Nat)
    (parts : List (List Nat))
    (hb : (45 :: 45 :: boundB).isPrefixOf rem = false) :
    StepsTo (mpCtxB dl) ⟨.partS, pos, 13 :: 10 :: rem, acc, parts⟩
      ⟨.partS, pos + 2, rem, acc ++ [13, 10], parts⟩ := by
  refine ⟨2, by simp; omega, fun f => ?_⟩
  show mpScan (mpCtxB dl) ((f + 1) + 1) .partS pos (13 :: 10 :: rem) acc parts = _
  simp only [mpScan]
  rw [follows_inter_crlf dl rem hb]
  simp only [if_false, Bool.false_eq_true]
  rw [follows_inter_ne dl 10 rem (by decide)]
  simp [List.append_assoc]

theorem steps_hit (dl pos : Nat) (acc : List Nat) (parts : List (List Nat))
    (rest : List Nat) (hr : rest ≠ []) :
    StepsTo (mpCtxB dl) ⟨.partS, pos, interB ++ rest, acc, parts⟩
      ⟨.partOrEndS, pos + interB.length, rest, acc, parts ++ [acc]⟩ := by
  have hlen : interB.length = 40 := rfl
  refine ⟨1, by simp [List.length_append, hlen], fun f => ?_⟩
  show mpScan (mpCtxB dl) (f + 1) .partS pos
    (13 :: (10 :: 45 :: 45 :: (boundB ++ rest))) acc parts = _
  simp only [mpScan]
  rw [show follows (mpCtxB dl).inter (13 :: (10 :: 45 :: 45 :: (boundB ++ rest)))
      = true from by
    show follows interB (interB ++ rest) = true
    exact follows_self_append interB rest hr]
  simp only [if_true]
  rfl

theorem steps_rest (dl pos : Nat) (acc : List Nat) (parts : List (List Nat))
    (X : List Nat) (hX : X ≠ []) :
    StepsTo (mpCtxB dl) ⟨.restS, pos, startTokB ++ X, acc, parts⟩
      ⟨.partS, pos + startTokB.length, X, [], parts⟩ := by
  have hlen : startTokB.length = 40 := rfl
  refine ⟨1, by simp [List.length_append, hlen], fun f => ?_⟩
  show mpScan (mpCtxB dl) (f + 1) .restS pos
    (45 :: (45 :: (boundB ++ [13, 10] ++ X))) acc parts = _
  simp only [mpScan]
  rw [show follows (mpCtxB dl).start (45 :: (45 :: (boundB ++ [13, 10] ++ X)))
      = true from by
    show follows startTokB (startTokB ++ X) = true
    exact follows_self_append startTokB X hX]
  simp only [if_true]
  rfl

theorem steps_poe_cont (dl pos : Nat) (acc : List Nat)
    (parts : List (List Nat)) (rem : List Nat) (hr : rem ≠ []) :
    StepsTo (mpCtxB dl) ⟨.partOrEndS, pos, 13 :: 10 :: rem, acc, parts⟩
      ⟨.partS, pos + 2, rem, [], parts⟩ := by
  refine ⟨1, by simp; omega, fun f => ?_⟩
  simp only [mpScan]
  rw [follows_head_ne 45 13 [45] (10 :: rem) (by decide)]
  simp only [Bool.false_eq_true, if_false]
  rw [follows_crlf_cons rem hr]
  simp

theorem finishes_poe_end (dl pos : Nat) (acc : List Nat)
    (parts : List (List Nat)) :
    FinishesTo (mpCtxB dl) ⟨.partOrEndS, pos, [45, 45, 13, 10], acc, parts⟩
      (.ok parts) :=
  ⟨1, by simp, fun f => rfl⟩

theorem natBytesAux_digits :
    ∀ (f n b : Nat), b ∈ natBytesAux f n → 48 ≤ b ∧ b ≤ 57 := by
  intro f
  induction f with
  | zero => intro n b hb; simp [natBytesAux] at hb
  | succ f ih =>
    intro n b hb
    simp only [natBytesAux] at hb
    by_cases h : n < 10
    · simp [h] at hb; omega
    · simp only [h, if_false, List.mem_append, List.mem_singleton] at hb
      rcases hb with hb | hb
      · exact ih _ b hb
      · omega

theorem natBytes_digits (n b : Nat) (hb : b ∈ natBytes n) :
    48 ≤ b ∧ b ≤ 57 :=
  natBytesAux_digits (n + 1) n b hb

theorem steps_content (dl n : Nat) (id fmt : List Nat) (pos : Nat)
    (parts : List (List Nat)) (rest : List Nat)
    (hid : ∀ b ∈ id, b ≠ 13) (hfmt : ∀ b ∈ fmt, b ≠ 13) (hr : rest ≠ []) :
    StepsTo (mpCtxB dl)
      ⟨.partS, pos, contentB n id fmt ++ interB ++ rest, [], parts⟩
      ⟨.partOrEndS, pos + (contentB n id fmt).length + interB.length, rest,
        contentB n id fmt, parts ++ [contentB n id fmt]⟩ := by
  have hC2 : ∀ b ∈ cidLineB ++ natBytes n, b ≠ 13 := by
    intro b hb
    rcases List.mem_append.mp hb with h | h
    · exact (by decide : ∀ b ∈ cidLineB, b ≠ 13) b h
    · have := natBytes_digits n b h; omega
  have hC3 : ∀ b ∈ getLineB ++ id ++ fmtSepB ++ fmt, b ≠ 13 := by
    intro b hb
    simp only [List.mem_append] at hb
    rcases hb with ((h | h) | h) | h
    · exact (by decide : ∀ b ∈ getLineB, b ≠ 13) b h
    · exact hid b h
    · exact (by decide : ∀ b ∈ fmtSepB, b ≠ 13) b h
    · exact hfmt b h
  have s1 := steps_chunk dl ctLineB (by decide) pos
    (13 :: 10 :: ((cidLineB ++ natBytes n) ++ (13 :: 10 :: (13 :: 10 ::
      ((getLineB ++ id ++ fmtSepB ++ fmt) ++ (13 :: 10 :: (13 :: 10 ::
        (interB ++ rest))))))))
    [] parts
  have s2 := steps_crlf dl (pos + ctLineB.length)
    ((cidLineB ++ natBytes n) ++ (13 :: 10 :: (13 :: 10 ::
      ((getLineB ++ id ++ fmtSepB ++ fmt) ++ (13 :: 10 :: (13 :: 10 ::
        (interB ++ rest)))))))
    ([] ++ ctLineB) parts (isPrefixOf_head_ne 45 67 _ _ (by decide))
  have s3 := steps_chunk dl (cidLineB ++ natBytes n) hC2
    (pos + ctLineB.length + 2)
    (13 :: 10 :: (13 :: 10 :: ((getLineB ++ id ++ fmtSepB ++ fmt)
      ++ (13 :: 10 :: (13 :: 10 :: (interB ++ rest))))))
    (([] ++ ctLineB) ++ [13, 10]) parts
  have s4 := steps_crlf dl
    (pos + ctLineB.length + 2 + (cidLineB ++ natBytes n).length)
    (13 :: 10 :: ((getLineB ++ id ++ fmtSepB ++ fmt)
      ++ (13 :: 10 :: (13 :: 10 :: (interB ++ rest)))))
    ((([] ++ ctLineB) ++ [13, 10]) ++ (cidLineB ++ natBytes n)) parts
    (isPrefixOf_head_ne 45 13 _ _ (by decide))
  have s5 := steps_crlf dl
    (pos + ctLineB.length + 2 + (cidLineB ++ natBytes n).length + 2)
    ((getLineB ++ id ++ fmtSepB ++ fmt)
      ++ (13 :: 10 :: (13 :: 10 :: (interB ++ rest))))
    (((([] ++ ctLineB) ++ [13, 10]) ++ (cidLineB ++ natBytes n)) ++ [13, 10])
    parts (isPrefixOf_head_ne 45 71 _ _ (by decide))
  have s6 := steps_chunk dl (getLineB ++ id ++ fmtSepB ++ fmt) hC3
    (pos + ctLineB.length + 2 + (cidLineB ++ natBytes n).length + 2 + 2)
    (13 :: 10 :: (13 :: 10 :: (interB ++ rest)))
    ((((([] ++ ctLineB) ++ [13, 10]) ++ (cidLineB ++ natBytes n)) ++ [13, 10])
      ++ [13, 10]) parts
  have s7 := steps_crlf dl
    (pos + ctLineB.length + 2 + (cidLineB ++ natBytes n).length + 2 + 2
      + (getLineB ++ id ++ fmtSepB ++ fmt).length)
    (13 :: 10 :: (interB ++ rest))
    (((((([] ++ ctLineB) ++ [13, 10]) ++ (cidLineB ++ natBytes n)) ++ [13, 10])
      ++ [13, 10]) ++ (getLineB ++ id ++ fmtSepB ++ fmt)) parts
    (isPrefixOf_head_ne 45 13 _ _ (by decide))
  have s8 := steps_crlf dl
    (pos + ctLineB.length + 2 + (cidLineB ++ natBytes n).length + 2 + 2
      + (getLineB ++ id ++ fmtSepB ++ fmt).length + 2)
    (interB ++ rest)
    ((((((([] ++ ctLineB) ++ [13, 10]) ++ (cidLineB ++ natBytes n)) ++ [13, 10])
      ++ [13, 10]) ++ (getLineB ++ id ++ fmtSepB ++ fmt)) ++ [13, 10]) parts
    (isPrefixOf_head_ne 45 13 _ _ (by decide))
  have s9 := steps_hit dl
    (pos + ctLineB.length + 2 + (cidLineB ++ natBytes n).length + 2 + 2
      + (getLineB ++ id ++ fmtSepB ++ fmt).length + 2 + 2)
    (((((((([] ++ ctLineB) ++ [13, 10]) ++ (cidLineB ++ natBytes n)) ++ [13, 10])
      ++ [13, 10]) ++ (getLineB ++ id ++ fmtSepB ++ fmt)) ++ [13, 10])
      ++ [13, 10]) parts rest hr
  have htotal := stepsTo_trans s1 (stepsTo_trans s2 (stepsTo_trans s3
    (stepsTo_trans s4 (stepsTo_trans s5 (stepsTo_trans s6
      (stepsTo_trans s7 (stepsTo_trans s8 s9)))))))
  have esrc : contentB n id fmt ++ interB ++ rest
      = ctLineB ++ (13 :: 10 :: ((cidLineB ++ natBytes n)
        ++ (13 :: 10 :: (13 :: 10 :: ((getLineB ++ id ++ fmtSepB ++ fmt)
          ++ (13 :: 10 :: (13 :: 10 :: (interB ++ rest)))))))) := by
    simp [contentB, crlfB, List.append_assoc]
  have ea : (((((((([] ++ ctLineB) ++ [13, 10]) ++ (cidLineB ++ natBytes n))
      ++ [13, 10]) ++ [13, 10]) ++ (getLineB ++ id ++ fmtSepB ++ fmt))
      ++ [13, 10]) ++ [13, 10]) = contentB n id fmt := by
    simp [contentB, crlfB, List.append_assoc]
  rw [esrc, ← ea]
  convert htotal using 2
  simp only [List.length_append, List.length_cons, List.length_nil, crlfB]
  omega

theorem contentB_ne_nil (n : Nat) (id fmt : List Nat) :
    contentB n id fmt ≠ [] := by
  intro h
  rcases List.append_eq_nil.mp h with ⟨-, h2⟩
  exact (by decide : crlfB ≠ []) h2

theorem p_chunk (X : List Nat)
    (hX : ∀ b ∈ X, b ≤ 127 ∧ b ≠ 13 ∧ b ≠ 10 ∧ b ≠ 0) :
    ∀ (rem hdr : List Nat) (hdrs : List (List Nat)),
    PStepsTo ⟨.header, X ++ rem, hdr, hdrs⟩ ⟨.header, rem, hdr ++ X, hdrs⟩ := by
  induction X with
  | nil =>
    intro rem hdr hdrs
    refine ⟨0, by simp [pPhi], fun f => ?_⟩
    simp
  | cons x X ih =>
    intro rem hdr hdrs
    obtain ⟨hx1, hx2, hx3, hx4⟩ := hX x (by simp)
    have hX' : ∀ b ∈ X, b ≤ 127 ∧ b ≠ 13 ∧ b ≠ 10 ∧ b ≠ 0 :=
      fun b hb => hX b (by simp [hb])
    have step1 : PStepsTo ⟨.header, (x :: X) ++ rem, hdr, hdrs⟩
        ⟨.header, X ++ rem, hdr ++ [x], hdrs⟩ := by
      refine ⟨1, by simp [pPhi, List.length_append]; omega, fun f => ?_⟩
      show partScan (f + 1) .header (x :: (X ++ rem)) hdr hdrs = _
      have h1 : ¬ 127 < x := by omega
      simp [partScan, h1, hx2, hx3, hx4]
    have h := pStepsTo_trans step1 (ih hX' rem (hdr ++ [x]) hdrs)
    have e2 : hdr ++ (x :: X) = (hdr ++ [x]) ++ X := by simp
    rw [e2]
    exact h

theorem p_crlf (rem hdr : List Nat) (hdrs : List (List Nat)) :
    PStepsTo ⟨.header, 13 :: 10 :: rem, hdr, hdrs⟩
      ⟨.headerOrBody, rem, [], hdrs ++ [hdr]⟩ := by
  refine ⟨2, by simp [pPhi]; omega, fun f => ?_⟩
  show partScan ((f + 1) + 1) .header (13 :: 10 :: rem) hdr hdrs = _
  simp [partScan]

theorem p_chunkHOB (X : List Nat) (hne : X ≠ [])
    (hX : ∀ b ∈ X, b ≤ 127 ∧ b ≠ 13 ∧ b ≠ 10 ∧ b ≠ 0)
    (rem hdr : List Nat) (hdrs : List (List Nat)) :
    PStepsTo ⟨.headerOrBody, X ++ rem, hdr, hdrs⟩
      ⟨.header, rem, hdr ++ X, hdrs⟩ := by
  match X, hne with
  | x :: X, _ =>
    obtain ⟨hx1, hx2, hx3, hx4⟩ := hX x (by simp)
    have step1 : PStepsTo ⟨.headerOrBody, (x :: X) ++ rem, hdr, hdrs⟩
        ⟨.header, (x :: X) ++ rem, hdr, hdrs⟩ := by
      refine ⟨1, by simp [pPhi, List.length_append]; omega, fun f => ?_⟩
      show partScan (f + 1) .headerOrBody (x :: (X ++ rem)) hdr hdrs = _
      have h1 : ¬ 127 < x := by omega
      simp [partScan, h1, hx2]
    exact pStepsTo_trans step1 (p_chunk (x :: X) hX rem hdr hdrs)

theorem p_blank_finish (rest hdr : List Nat) (hdrs : List (List Nat))
    (hr : rest ≠ []) :
    PFinishes ⟨.headerOrBody, 13 :: 10 :: rest, hdr, hdrs⟩ (.ok (hdrs, rest)) := by
  refine ⟨2, by simp [pPhi], fun f => ?_⟩
  show partScan ((f + 1) + 1) .headerOrBody (13 :: 10 :: rest) hdr hdrs = _
  simp [partScan, hr]

theorem splitColon_no_colon_append (X : List Nat) (hX : ∀ b ∈ X, b ≠ 58)
    (r : List Nat) : splitColon (X ++ 58 :: r) = some (X, r) := by
  induction X with
  | nil => simp [splitColon]
  | cons x X ih =>
    have hx : x ≠ 58 := hX x (by simp)
    simp [splitColon, hx, ih (fun b hb => hX b (by simp [hb]))]

theorem dropWhile_eq_self_of_none (p : Nat → Bool) (l : List Nat)
    (h : ∀ b ∈ l, p b = false) : l.dropWhile p = l := by
  cases l with
  | nil => rfl
  | cons a l => simp [List.dropWhile, h a (by simp)]

theorem trimBytes_space (Y : List Nat) (hY : ∀ b ∈ Y, isWsByte b = false)
    (hne : Y ≠ []) : trimBytes (32 :: Y) = Y := by
  unfold trimBytes
  have h1 : List.dropWhile isWsByte (32 :: Y) = List.dropWhile isWsByte Y := by
    simp [List.dropWhile, isWsByte]
  have h2 : List.dropWhile isWsByte Y = Y :=
    dropWhile_eq_self_of_none _ _ hY
  have h3 : List.dropWhile isWsByte Y.reverse = Y.reverse :=
    dropWhile_eq_self_of_none _ _ (fun b hb => hY b (List.mem_reverse.mp hb))
  rw [h1, h2, h3, List.reverse_reverse]

theorem headerPair_cid (n : Nat) :
    headerPair (cidLineB ++ natBytes n)
      = .ok (strBytes "content-id", strBytes "req-" ++ natBytes n) := by
  have hsplit : splitColon (cidLineB ++ natBytes n)
      = some (strBytes "Content-ID", 32 :: (strBytes "req-" ++ natBytes n)) :=
    splitColon_no_colon_append (strBytes "Content-ID") (by decide)
      (32 :: (strBytes "req-" ++ natBytes n))
  have hws : ∀ b ∈ strBytes "req-" ++ natBytes n, isWsByte b = false := by
    intro b hb
    rcases List.mem_append.mp hb with h | h
    · exact (by decide : ∀ b ∈ strBytes "req-", isWsByte b = false) b h
    · have := natBytes_digits n b h
      simp [isWsByte]; omega
  have hne : strBytes "req-" ++ natBytes n ≠ [] := by
    intro h
    rcases List.append_eq_nil.mp h with ⟨h1, -⟩
    exact (by decide : strBytes "req-" ≠ []) h1
  simp only [headerPair, hsplit]
  rw [trimBytes_space _ hws hne,
    show lowerBytes (strBytes "Content-ID") = strBytes "content-id" from by decide]

theorem pFinishes_content (n : Nat) (id fmt : List Nat) :
    PFinishes ⟨.header, contentB n id fmt, [], []⟩
      (.ok ([ctLineB, cidLineB ++ natBytes n],
        getLineB ++ id ++ fmtSepB ++ fmt ++ crlfB ++ crlfB)) := by
  have hct : ∀ b ∈ ctLineB, b ≤ 127 ∧ b ≠ 13 ∧ b ≠ 10 ∧ b ≠ 0 := by decide
  have hc2 : ∀ b ∈ cidLineB ++ natBytes n, b ≤ 127 ∧ b ≠ 13 ∧ b ≠ 10 ∧ b ≠ 0 := by
    intro b hb
    rcases List.mem_append.mp hb with h | h
    · exact (by decide : ∀ b ∈ cidLineB, b ≤ 127 ∧ b ≠ 13 ∧ b ≠ 10 ∧ b ≠ 0) b h
    · have := natBytes_digits n b h; omega
  have hc2ne : cidLineB ++ natBytes n ≠ [] := by
    intro h
    rcases List.append_eq_nil.mp h with ⟨h1, -⟩
    exact (by decide : cidLineB ≠ []) h1
  have hBne : getLineB ++ id ++ fmtSepB ++ fmt ++ crlfB ++ crlfB ≠ [] := by
    intro h
    rcases List.append_eq_nil.mp h with ⟨-, h2⟩
    exact (by decide : crlfB ≠ []) h2
  have q1 := p_chunk ctLineB hct
    (13 :: 10 :: ((cidLineB ++ natBytes n) ++ (13 :: 10 :: (13 :: 10 ::
      (getLineB ++ id ++ fmtSepB ++ fmt ++ crlfB ++ crlfB))))) [] []
  have q2 := p_crlf
    ((cidLineB ++ natBytes n) ++ (13 :: 10 :: (13 :: 10 ::
      (getLineB ++ id ++ fmtSepB ++ fmt ++ crlfB ++ crlfB))))
    ([] ++ ctLineB) []
  have q3 := p_chunkHOB (cidLineB ++ natBytes n) hc2ne hc2
    (13 :: 10 :: (13 :: 10 ::
      (getLineB ++ id ++ fmtSepB ++ fmt ++ crlfB ++ crlfB)))
    [] ([] ++ [[] ++ ctLineB])
  have q4 := p_crlf
    (13 :: 10 :: (getLineB ++ id ++ fmtSepB ++ fmt ++ crlfB ++ crlfB))
    ([] ++ (cidLineB ++ natBytes n)) ([] ++ [[] ++ ctLineB])
  have q5 := p_blank_finish
    (getLineB ++ id ++ fmtSepB ++ fmt ++ crlfB ++ crlfB) []
    (([] ++ [[] ++ ctLineB]) ++ [[] ++ (cidLineB ++ natBytes n)]) hBne
  have h := pStepsTo_finishes q1 (pStepsTo_finishes q2
    (pStepsTo_finishes q3 (pStepsTo_finishes q4 q5)))
  rw [show (([] ++ [[] ++ ctLineB]) ++ [[] ++ (cidLineB ++ natBytes n)])
      = [ctLineB, cidLineB ++ natBytes n] from by simp] at h
  rw [show contentB n id fmt
      = ctLineB ++ (13 :: 10 :: ((cidLineB ++ natBytes n)
        ++ (13 :: 10 :: (13 :: 10 ::
          (getLineB ++ id ++ fmtSepB ++ fmt ++ crlfB ++ crlfB))))) from by
    simp [contentB, crlfB, List.append_assoc]]
  exact h

theorem except_bind_ok {ε α β : Type} (a : α) (f : α → Except ε β) :
    (Except.ok a >>= f : Except ε β) = f a := rfl

theorem partParse_content (n : Nat) (id fmt : List Nat) :
    partParse (contentB n id fmt) = .ok (partStruct n id fmt) := by
  have hrun : partScan (2 * (contentB n id fmt).length + 1) .header
      (contentB n id fmt) [] []
      = .ok ([ctLineB, cidLineB ++ natBytes n],
        getLineB ++ id ++ fmtSepB ++ fmt ++ crlfB ++ crlfB) := by
    have h := pFinishes_run (pFinishes_content n id fmt)
    simpa [pPhi] using h
  have hp1 : headerPair ctLineB
      = Except.ok (strBytes "content-type", strBytes "application/http") := rfl
  simp only [partParse, hrun, except_bind_ok, List.foldlM, hp1, headerPair_cid]
  rfl

theorem mapM_partParse (fmt : List Nat) :
    ∀ (ids : List (List Nat)) (n : Nat),
      (contentsView fmt n ids).mapM partParse = .ok (parsedView fmt n ids) := by
  intro ids
  induction ids with
  | nil => intro n; rfl
  | cons id r ih =>
    intro n
    simp only [contentsView, parsedView, List.mapM_cons, partParse_content,
      ih (n + 1), except_bind_ok]
    rfl

theorem parsedView_length (fmt : List Nat) :
    ∀ (ids : List (List Nat)) (n : Nat),
      (parsedView fmt n ids).length = ids.length := by
  intro ids
  induction ids with
  | nil => intro n; rfl
  | cons id r ih => intro n; simp [parsedView, ih (n + 1)]

theorem parsedView_lookup (fmt : List Nat) :
    ∀ (ids : List (List Nat)) (n k : Nat)
      (hk : k < (parsedView fmt n ids).length),
      lookupHdr (strBytes "content-type")
          ((parsedView fmt n ids).get ⟨k, hk⟩).headers
        = some (strBytes "application/http")
      ∧ lookupHdr (strBytes "content-id")
          ((parsedView fmt n ids).get ⟨k, hk⟩).headers
        = some (strBytes "req-" ++ natBytes (n + k)) := by
  intro ids
  induction ids with
  | nil => intro n k hk; simp [parsedView] at hk
  | cons id r ih =>
    intro n k hk
    match k with
    | 0 => exact ⟨rfl, rfl⟩
    | k + 1 =>
      have hk' : k < (parsedView fmt (n + 1) r).length := by
        simpa [parsedView] using hk
      have h := ih (n + 1) k hk'
      rw [show n + 1 + k = n + (k + 1) from by omega] at h
      simpa [parsedView] using h

theorem partBytes_decomp (n : Nat) (id fmt : List Nat) :
    partBytes n id fmt = startTokB ++ contentB n id fmt ++ crlfB := by
  have e1 : strBytes "--" = [45, 45] := by decide
  have e2 : strBytes "\r\n" = [13, 10] := by decide
  have e3 : strBytes "Content-Type: application/http\r\n"
      = ctLineB ++ [13, 10] := by decide
  simp only [partBytes, contentB, startTokB, crlfB, cidLineB, getLineB,
    fmtSepB, e1, e2, e3, List.append_assoc]

theorem encShape (fmt : List Nat) :
    ∀ (ids : List (List Nat)) (id : List Nat) (n : Nat),
      encodeParts fmt n (id :: ids) ++ termB
        = startTokB
          ++ (contentB n id fmt ++ interB ++ afterView fmt (n + 1) ids) := by
  have e4 : ∀ X : List Nat,
      crlfB ++ (startTokB ++ X) = interB ++ (crlfB ++ X) := by
    intro X
    rw [← List.append_assoc, ← List.append_assoc,
      show crlfB ++ startTokB = interB ++ crlfB from by decide]
  have e5 : crlfB ++ termB = interB ++ [45, 45, 13, 10] := by decide
  intro ids
  induction ids with
  | nil =>
    intro id n
    simp only [encodeParts, afterView, List.append_nil, partBytes_decomp,
      List.append_assoc, e5]
  | cons id2 r ih =>
    intro id n
    show partBytes n id fmt ++ encodeParts fmt (n + 1) (id2 :: r) ++ termB = _
    rw [List.append_assoc, ih id2 (n + 1)]
    simp only [partBytes_decomp, afterView, List.append_assoc, e4]

theorem finishes_parts (dl : Nat) (fmt : List Nat)
    (hfmt : ∀ b ∈ fmt, b ≠ 13) :
    ∀ (ids : List (List Nat)) (id : List Nat) (n pos : Nat)
      (parts : List (List Nat)),
      (∀ b ∈ id, b ≠ 13) → (∀ i ∈ ids, ∀ b ∈ i, b ≠ 13) →
      FinishesTo (mpCtxB dl)
        ⟨.partS, pos,
          contentB n id fmt ++ interB ++ afterView fmt (n + 1) ids, [], parts⟩
        (.ok (parts ++ contentsView fmt n (id :: ids))) := by
  intro ids
  induction ids with
  | nil =>
    intro id n pos parts hid _
    have h1 := steps_content dl n id fmt pos parts [45, 45, 13, 10] hid hfmt
      (by decide)
    have h2 := finishes_poe_end dl
      (pos + (contentB n id fmt).length + interB.length)
      (contentB n id fmt) (parts ++ [contentB n id fmt])
    have h := stepsTo_finishes h1 h2
    simpa [afterView, contentsView] using h
  | cons id2 rest2 ih =>
    intro id n pos parts hid hids
    have hid2 : ∀ b ∈ id2, b ≠ 13 := hids id2 (by simp)
    have hids' : ∀ i ∈ rest2, ∀ b ∈ i, b ≠ 13 :=
      fun i hi => hids i (by simp [hi])
    have hAfter : afterView fmt (n + 1) (id2 :: rest2)
        = 13 :: 10 :: (contentB (n + 1) id2 fmt ++ interB
          ++ afterView fmt (n + 1 + 1) rest2) := by
      simp [afterView, crlfB, List.append_assoc]
    have hne : contentB (n + 1) id2 fmt ++ interB
        ++ afterView fmt (n + 1 + 1) rest2 ≠ [] := by
      intro h
      rcases List.append_eq_nil.mp h with ⟨h1, -⟩
      rcases List.append_eq_nil.mp h1 with ⟨h2, -⟩
      exact contentB_ne_nil (n + 1) id2 fmt h2
    rw [hAfter]
    have h1 := steps_content dl n id fmt pos parts
      (13 :: 10 :: (contentB (n + 1) id2 fmt ++ interB
        ++ afterView fmt (n + 1 + 1) rest2)) hid hfmt (by simp)
    have h2 := steps_poe_cont dl
      (pos + (contentB n id fmt).length + interB.length)
      (contentB n id fmt) (parts ++ [contentB n id fmt])
      (contentB (n + 1) id2 fmt ++ interB ++ afterView fmt (n + 1 + 1) rest2)
      hne
    have h3 := ih id2 (n + 1)
      (pos + (contentB n id fmt).length + interB.length + 2)
      (parts ++ [contentB n id fmt]) hid2 hids'
    have h := stepsTo_finishes h1 (stepsTo_finishes h2 h3)
    have er : (parts ++ [contentB n id fmt])
        ++ contentsView fmt (n + 1) (id2 :: rest2)
        = parts ++ contentsView fmt n (id :: id2 :: rest2) := by
      simp [contentsView]
    rw [er] at h
    exact h

/-- C4 amended: for every batch of at least one id, with every id (and
the format string) free of carriage-return bytes, the request body
built by the batch encoder decodes under `multipart_parse` with the
same boundary into exactly as many parts as there are ids, and the
k-th part carries `Content-Type: application/http` and
`Content-ID: req-k`, in order. -/
theorem c4_roundtrip (fmt : List Nat) (ids : List (List Nat))
    (hfmt : ∀ b ∈ fmt, b ≠ 13) (hids : ∀ i ∈ ids, ∀ b ∈ i, b ≠ 13)
    (hne : ids ≠ []) :
    ∃ parts : List MPart,
      multipart_parse (encodeBatch fmt ids) boundB = .ok parts
      ∧ parts.length = ids.length
      ∧ ∀ (k : Nat) (hk : k < parts.length),
          lookupHdr (strBytes "content-type") (parts.get ⟨k, hk⟩).headers
            = some (strBytes "application/http")
          ∧ lookupHdr (strBytes "content-id") (parts.get ⟨k, hk⟩).headers
            = some (strBytes "req-" ++ natBytes k) := by
  obtain ⟨id, rest, rfl⟩ : ∃ id rest, ids = id :: rest := by
    cases ids with
    | nil => exact absurd rfl hne
    | cons id rest => exact ⟨id, rest, rfl⟩
  refine ⟨parsedView fmt 0 (id :: rest), ?_, ?_, ?_⟩
  · have hid : ∀ b ∈ id, b ≠ 13 := hids id (by simp)
    have hrest : ∀ i ∈ rest, ∀ b ∈ i, b ≠ 13 :=
      fun i hi => hids i (by simp [hi])
    have hdata : encodeBatch fmt (id :: rest)
        = startTokB ++ (contentB 0 id fmt ++ interB
          ++ afterView fmt (0 + 1) rest) :=
      encShape fmt rest id 0
    have hXne : contentB 0 id fmt ++ interB ++ afterView fmt (0 + 1) rest
        ≠ [] := by
      intro h
      rcases List.append_eq_nil.mp h with ⟨h1, -⟩
      rcases List.append_eq_nil.mp h1 with ⟨h2, -⟩
      exact contentB_ne_nil 0 id fmt h2
    have hstep := steps_rest ((encodeBatch fmt (id :: rest)).length) 0 [] []
      (contentB 0 id fmt ++ interB ++ afterView fmt (0 + 1) rest) hXne
    have hfin := finishes_parts ((encodeBatch fmt (id :: rest)).length) fmt
      hfmt rest id 0 (0 + startTokB.length) [] hid hrest
    have hall := stepsTo_finishes hstep hfin
    rw [← hdata] at hall
    have hrun := finishes_run hall
    have hmp : multipart_parse (encodeBatch fmt (id :: rest)) boundB
        = (mpScan (mpCtxB ((encodeBatch fmt (id :: rest)).length))
            ((encodeBatch fmt (id :: rest)).length + 1) .restS 0
            (encodeBatch fmt (id :: rest)) [] []).bind
          (fun raws => raws.mapM partParse) := rfl
    rw [hmp, hrun]
    show (contentsView fmt 0 (id :: rest)).mapM partParse = _
    exact mapM_partParse fmt (id :: rest) 0
  · exact parsedView_length fmt (id :: rest) 0
  · intro k hk
    have h := parsedView_lookup fmt (id :: rest) 0 k hk
    simpa using h

/-- Witness for `c4_roundtrip` at a one-id batch with the `minimal`
format. -/
theorem c4_roundtrip_witness :
    ∃ parts : List MPart,
      multipart_parse (encodeBatch (strBytes "minimal") [[97]]) boundB
          = .ok parts
      ∧ parts.length = ([[97]] : List (List Nat)).length
      ∧ ∀ (k : Nat) (hk : k < parts.length),
          lookupHdr (strBytes "content-type") (parts.get ⟨k, hk⟩).headers
            = some (strBytes "application/http")
          ∧ lookupHdr (strBytes "content-id") (parts.get ⟨k, hk⟩).headers
            = some (strBytes "req-" ++ natBytes k) :=
  c4_roundtrip (strBytes "minimal") [[97]] (by decide) (by decide) (by decide)
